import Mathlib

/-!
# Verification of the document-intelligence extraction pipeline

A shallow embedding, in Lean 4, of the algorithmic core of the
document-intelligence repository: the Content Budgeter
(`extract_relevant_sections`), the Category Prioritizer
(`prioritize_categories`), the Answer Sheet Parser
(`parse_analysis_results`), the Question Matcher
(`display_all_questions_with_results`) — all from `src/app.py` — and the
Table Heuristic Extractor (`extract_tables_with_enhanced_patterns` /
`create_table_from_data`) from `src/tabular.py`.

Python strings are embedded as `List Char` (`PyStr`).  The Python string
operations the code uses (`split`, `strip`, `replace`, `count`, `in`,
`startswith`, `lower`, `join`, slicing) are defined below with Python's
semantics; each is written by structural recursion (a pending-skip counter
replaces the non-structural "drop the matched separator" step) so that all
definitions compute by kernel reduction.

Python's `len(text)/4` token estimate is float arithmetic, but every value
it produces is an exact multiple of 1/4 (quarters are exact in binary
floating point at these magnitudes), so all budget comparisons are modelled
exactly by integer comparisons scaled by 4 (`length ≤ 4 * max_tokens`).
Fallible operations (list indexing such as Python's `[-1]`) return
`Option`, and functions built from them are `Option`-valued, so "the code
raises" is visible as `none`.
-/

set_option maxRecDepth 8192

/-- A Python `str`, embedded as its list of characters. -/
abbrev PyStr := List Char

/-- Write a `PyStr` from a Lean string literal. -/
def S (s : String) : PyStr := s.toList

/-- Python's `str.strip()` / regex `\s` whitespace set (ASCII). -/
def pyIsSpace (c : Char) : Bool :=
  c = ' ' || c = '\t' || c = '\n' || c = '\r' || c = '\x0b' || c = '\x0c'

/-- Python `str.strip()`: drop leading and trailing whitespace. -/
def pyStrip (s : PyStr) : PyStr :=
  ((s.dropWhile pyIsSpace).reverse.dropWhile pyIsSpace).reverse

/-- Python `str.lower()` (the texts involved are ASCII). -/
def pyLower (s : PyStr) : PyStr := s.map Char.toLower

/-- Python `sub in s` (substring containment). -/
def pyIn (sub : PyStr) : PyStr → Bool
  | [] => sub.isEmpty
  | c :: t => sub.isPrefixOf (c :: t) || pyIn sub t

/-- Worker for `pySplit`: `skip` counts separator characters still to be
consumed after a match (the matched separator's head was consumed by the
pattern match, keeping the recursion structural). -/
def splitGo (sep : PyStr) : PyStr → Nat → PyStr → List PyStr
  | [], _, acc => [acc.reverse]
  | _ :: s, k + 1, acc => splitGo sep s k acc
  | c :: s, 0, acc =>
    if sep.isPrefixOf (c :: s) then
      acc.reverse :: splitGo sep s (sep.length - 1) []
    else
      splitGo sep s 0 (c :: acc)

/-- Python `s.split(sep)` for a non-empty separator: split on every
non-overlapping occurrence, left to right, keeping empty pieces. -/
def pySplit (s sep : PyStr) : List PyStr := splitGo sep s 0 []

/-- Worker for `pySplitN`; `n` counts splits still allowed. -/
def splitNGo (sep : PyStr) : PyStr → Nat → Nat → PyStr → List PyStr
  | [], _, _, acc => [acc.reverse]
  | _ :: s, n, k + 1, acc => splitNGo sep s n k acc
  | c :: s, 0, 0, acc => [acc.reverse ++ c :: s]
  | c :: s, n + 1, 0, acc =>
    if sep.isPrefixOf (c :: s) then
      acc.reverse :: splitNGo sep s n (sep.length - 1) []
    else
      splitNGo sep s (n + 1) 0 (c :: acc)

/-- Python `s.split(sep, maxsplit)`: at most `maxsplit` splits. -/
def pySplitN (s sep : PyStr) (maxsplit : Nat) : List PyStr :=
  splitNGo sep s maxsplit 0 []

/-- Worker for `pyReplace`. -/
def replaceGo (old new : PyStr) : PyStr → Nat → PyStr
  | [], _ => []
  | _ :: s, k + 1 => replaceGo old new s k
  | c :: s, 0 =>
    if old.isPrefixOf (c :: s) then new ++ replaceGo old new s (old.length - 1)
    else c :: replaceGo old new s 0

/-- Python `s.replace(old, new)` for non-empty `old`: replace every
non-overlapping occurrence, left to right. -/
def pyReplace (s old new : PyStr) : PyStr := replaceGo old new s 0

/-- Worker for `pyCount`. -/
def countGo (sub : PyStr) : PyStr → Nat → Nat
  | [], _ => 0
  | _ :: s, k + 1 => countGo sub s k
  | c :: s, 0 =>
    if sub.isPrefixOf (c :: s) then 1 + countGo sub s (sub.length - 1)
    else countGo sub s 0

/-- Python `s.count(sub)` for non-empty `sub`: the number of
non-overlapping occurrences, counted left to right. -/
def pyCount (s sub : PyStr) : Nat := countGo sub s 0

/-- Python `sep.join(pieces)`. -/
def pyJoin (sep : PyStr) (pieces : List PyStr) : PyStr := List.intercalate sep pieces

/-! ## Content Budgeter (`extract_relevant_sections`, src/app.py)

`category_keywords` is the dict literal inside `extract_relevant_sections`;
`.get(category, [])` becomes an `if`-chain with default `[]`. -/

/-- The `category_keywords` dict literal of `extract_relevant_sections`. -/
def extractKeywords (category : PyStr) : List PyStr :=
  if category = S "nutrient" then
    [S "nutrient", S "nutrition", S "nutritional", S "energy", S "protein", S "fat",
     S "carbohydrate", S "vitamin", S "mineral", S "kcal", S "calorie", S "sugar",
     S "fiber", S "fibre", S "sodium", S "calcium", S "iron", S "potassium",
     S "saturated", S "unsaturated", S "trans", S "cholesterol", S "ash", S "moisture",
     S "starch", S "dietary fiber", S "total fat", S "monounsaturated",
     S "polyunsaturated", S "vitamin a", S "vitamin c", S "vitamin d", S "vitamin e",
     S "thiamin", S "riboflavin", S "niacin", S "folate", S "cobalamin", S "mg/100g",
     S "g/100g", S "kj/100g", S "per 100g", S "per serving", S "nutritional value",
     S "nutritional information"]
  else if category = S "dietary" then
    [S "dietary", S "halal", S "kosher", S "vegan", S "vegetarian", S "gluten",
     S "lactose", S "organic", S "natural", S "free range", S "grass fed",
     S "non-dairy", S "plant-based", S "gluten-free", S "lactose-free", S "dairy-free",
     S "egg-free", S "nut-free", S "soy-free", S "certified", S "certification",
     S "religious", S "diet", S "dietary restriction"]
  else if category = S "allergen" then
    [S "allergen", S "allergy", S "allergic", S "contain", S "contains",
     S "may contain", S "trace", S "peanut", S "nut", S "tree nut", S "milk",
     S "dairy", S "egg", S "soy", S "soya", S "wheat", S "gluten", S "fish",
     S "shellfish", S "crustacean", S "mollusc", S "celery", S "mustard", S "sesame",
     S "lupin", S "sulphite", S "sulfite", S "cross-contamination",
     S "allergen information", S "allergy advice", S "free from", S "does not contain"]
  else if category = S "gmo" then
    [S "gmo", S "genetic", S "genetically", S "modified", S "organism", S "dna",
     S "gene", S "transgenic", S "bioengineered", S "biotechnology", S "recombinant",
     S "engineered", S "modification", S "non-gmo", S "gmo-free",
     S "genetically modified organism", S "genetic engineering"]
  else if category = S "safety" then
    [S "safety", S "heavy metal", S "metals", S "contaminant", S "contamination",
     S "residue", S "pesticide", S "herbicide", S "toxin", S "toxic", S "pathogen",
     S "irradiation", S "radiation", S "lead", S "mercury", S "cadmium", S "arsenic",
     S "aflatoxin", S "mycotoxin", S "chemical", S "hazard", S "risk", S "limit",
     S "maximum", S "acceptable", S "safe", S "unsafe"]
  else if category = S "composition" then
    [S "composition", S "ingredient", S "ingredients", S "formulation", S "component",
     S "components", S "carrier", S "additive", S "additives", S "preservative",
     S "preservatives", S "percentage", S "percent", S "%", S "formula", S "recipe",
     S "constituent", S "material", S "substance", S "compound", S "mixture",
     S "blend", S "preparation"]
  else if category = S "microbiological" then
    [S "microbiological", S "microbial", S "microbe", S "bacteria", S "bacterial",
     S "yeast", S "mold", S "mould", S "fungi", S "pathogen", S "pathogenic",
     S "shelf life", S "storage", S "temperature", S "refrigeration", S "freezing",
     S "sterilization", S "pasteurization", S "cfu", S "colony", S "count",
     S "salmonella", S "listeria", S "e.coli", S "staphylococcus", S "clostridium",
     S "bacillus", S "spoilage", S "preservation"]
  else if category = S "regulatory" then
    [S "regulatory", S "regulation", S "regulations", S "compliance", S "compliant",
     S "standard", S "standards", S "requirement", S "requirements", S "certification",
     S "certified", S "approved", S "approval", S "eu", S "european", S "fda",
     S "usda", S "bpom", S "codex", S "iso", S "haccp", S "brc", S "ifs", S "fssc",
     S "legal", S "law", S "directive", S "legislation", S "authorized",
     S "permitted", S "prohibited", S "banned", S "restricted"]
  else []

/-- The keyword-hit score both components compute:
`sum(text.lower().count(keyword.lower()) for keyword in keywords)`. -/
def keywordHits (keywords : List PyStr) (text : PyStr) : Nat :=
  (keywords.map (fun kw => pyCount (pyLower text) (pyLower kw))).sum

/-- The per-document marker `"\n\n=== DOCUMENT"` the corpus is split on. -/
def docMarker : PyStr := S "\n\n=== DOCUMENT"

/-- `chunks = document_content.split("\n\n=== DOCUMENT")`. -/
def chunksOf (content : PyStr) : List PyStr := pySplit content docMarker

/-- `header = chunks[0] if chunks else ""` (`split` never returns an empty
list, so the guard never fires). -/
def headerOf (content : PyStr) : PyStr := (chunksOf content).headI

/-- `documents = ["=== DOCUMENT"+c for c in chunks[1:]] if len(chunks) > 1
else [document_content]`. -/
def docsOf (content : PyStr) : List PyStr :=
  if (chunksOf content).length > 1 then
    (chunksOf content).tail.map (fun chunk => S "=== DOCUMENT" ++ chunk)
  else [content]

/-- The stub substituted for a document with no keyword hits:
`f"{doc_header}\n\n[Document analyzed but no explicit {category} keywords found]"`. -/
def stubFor (category docHeader : PyStr) : PyStr :=
  docHeader ++ S "\n\n[Document analyzed but no explicit " ++ category ++
    S " keywords found]"

/-- `doc_header = doc_lines[0] if doc_lines else ""` where
`doc_lines = doc.split('\n')`. -/
def docHeaderOf (doc : PyStr) : PyStr := (pySplit doc (S "\n")).headI

/-- The `relevant_sections` list: the header when its strip is non-empty,
then each document in full when it has keyword hits, else its stub. -/
def relevantSectionsOf (content category : PyStr) : List PyStr :=
  let keywords := extractKeywords category
  (if pyStrip (headerOf content) ≠ [] then [headerOf content] else []) ++
    (docsOf content).map (fun doc =>
      if keywordHits keywords doc > 0 then doc
      else stubFor category (docHeaderOf doc))

/-- One scored segment of the re-ranking pass: the tuple
`(section, keyword_count, density)`.  Density is kept as the exact
rational `count * 1000 / length` (compared by cross-multiplication); the
code's float division is a monotone image of this rational, so the model
orders segments the same way except that floats can collapse two distinct
rationals into a tie resolved by sort stability — no claim below depends
on the order of near-equal densities. -/
structure Scored where
  seg : PyStr
  hits : Nat
  segLen : Nat
deriving Repr, DecidableEq

/-- `density(a) ≥ density(b)` where `density = hits * 1000 / segLen` and a
zero-length segment has density `0` (the code's `if section_length > 0 else 0`). -/
def densityGE (a b : Scored) : Bool :=
  if a.segLen = 0 then (b.segLen = 0 || b.hits = 0)
  else if b.segLen = 0 then true
  else b.hits * 1000 * a.segLen ≤ a.hits * 1000 * b.segLen

/-- The sort key comparison: `(keyword_count, density)` lexicographically,
`a ≥ b`. -/
def scoredGE (a b : Scored) : Bool :=
  b.hits < a.hits || (a.hits = b.hits && densityGE a b)

/-- Insert into a descending-sorted list after every element with an equal
or larger key: together with `sortScoredDesc` this is Python's stable
`sort(key=lambda x: (x[1], x[2]), reverse=True)`. -/
def insertScoredDesc (x : Scored) : List Scored → List Scored
  | [] => [x]
  | y :: ys => if scoredGE y x then y :: insertScoredDesc x ys else x :: y :: ys

/-- Python's stable descending sort of the scored sections. -/
def sortScoredDesc (l : List Scored) : List Scored :=
  l.foldl (fun acc x => insertScoredDesc x acc) []

/-- The truncation marker appended to a partially included section. -/
def truncMarker : PyStr := S "\n[... content truncated ...]"

/-- The greedy accumulation loop of the re-ranking pass.  `max4` is
`4 * max_tokens` and `curr4` is four times the running token estimate, so
every comparison is the code's float comparison made exact (all the floats
involved are exact quarters).  `remaining_tokens > 100` becomes
`400 < max4 - curr4`, and `chars_to_include = int(remaining_tokens * 4)`
becomes `max4 - curr4`.  The loop `break`s at the first section that does
not fit, after appending its truncated prefix when more than 100 tokens of
budget remain. -/
def greedyTake (max4 : Nat) : List Scored → Nat → List PyStr
  | [], _ => []
  | x :: xs, curr4 =>
    if curr4 + x.segLen ≤ max4 then x.seg :: greedyTake max4 xs (curr4 + x.segLen)
    else if 400 < max4 - curr4 then [x.seg.take (max4 - curr4) ++ truncMarker]
    else []

/-- The scored triples `(section, keyword_count, density)` built over
`relevant_sections` for the re-ranking pass. -/
def scoredSectionsOf (content category : PyStr) : List Scored :=
  (relevantSectionsOf content category).map (fun sec =>
    { seg := sec, hits := keywordHits (extractKeywords category) sec,
      segLen := sec.length : Scored })

/-- `extract_relevant_sections(document_content, category, max_tokens)`
(src/app.py).  `estimate_tokens(text) > max_tokens` is
`len(text)/4 > max_tokens`, i.e. `4 * max_tokens < len(text)`. -/
def extractRelevantSections (content category : PyStr) (maxTokens : Nat) : PyStr :=
  if 4 * maxTokens <
      (pyJoin (S "\n\n") (relevantSectionsOf content category)).length then
    pyJoin (S "\n\n")
      (greedyTake (4 * maxTokens) (sortScoredDesc (scoredSectionsOf content category)) 0)
  else pyJoin (S "\n\n") (relevantSectionsOf content category)

/-! ## Category Prioritizer (`prioritize_categories`, src/app.py) -/

/-- The `category_keywords` dict literal of `prioritize_categories` (a
shorter list per category than the Content Budgeter's). -/
def prioritizeKeywords (category : PyStr) : List PyStr :=
  if category = S "nutrient" then
    [S "nutrient", S "nutrition", S "energy", S "protein", S "fat", S "carbohydrate",
     S "vitamin", S "mineral", S "kcal", S "calorie", S "sugar", S "fiber", S "sodium"]
  else if category = S "dietary" then
    [S "dietary", S "halal", S "kosher", S "vegan", S "vegetarian", S "gluten",
     S "lactose", S "organic", S "natural"]
  else if category = S "allergen" then
    [S "allergen", S "allergy", S "contain", S "may contain", S "trace", S "peanut",
     S "nut", S "milk", S "egg", S "soy", S "wheat", S "fish", S "shellfish"]
  else if category = S "gmo" then
    [S "gmo", S "genetic", S "modified", S "organism", S "dna", S "gene",
     S "transgenic", S "bioengineered", S "biotechnology"]
  else if category = S "safety" then
    [S "safety", S "heavy metal", S "contaminant", S "residue", S "pesticide",
     S "toxin", S "pathogen", S "irradiation", S "radiation"]
  else if category = S "composition" then
    [S "composition", S "ingredient", S "formulation", S "component", S "carrier",
     S "additive", S "preservative", S "percentage"]
  else if category = S "microbiological" then
    [S "microbiological", S "microbial", S "bacteria", S "yeast", S "mold",
     S "pathogen", S "shelf life", S "storage", S "temperature"]
  else if category = S "regulatory" then
    [S "regulatory", S "regulation", S "compliance", S "standard", S "requirement",
     S "certification", S "approved", S "eu", S "fda", S "usda", S "bpom"]
  else []

/-- The relevance score `prioritize_categories` computes per category:
`sum(document_content.lower().count(keyword.lower()) for keyword in keywords)`. -/
def prioritizeScore (content category : PyStr) : Nat :=
  keywordHits (prioritizeKeywords category) content

/-- Stable insertion for the descending sort of categories by score. -/
def insertCatDesc (score : PyStr → Nat) (x : PyStr) : List PyStr → List PyStr
  | [] => [x]
  | y :: ys => if score x ≤ score y then y :: insertCatDesc score x ys
               else x :: y :: ys

/-- `prioritize_categories(document_content, categories)`:
`sorted(categories, key=lambda x: category_scores[x], reverse=True)`
(Python's stable descending sort). -/
def prioritizeCategories (content : PyStr) (categories : List PyStr) : List PyStr :=
  categories.foldl (fun acc x => insertCatDesc (prioritizeScore content) x acc) []

/-! ## Answer Sheet Parser (`parse_analysis_results`, src/app.py)

The parser returns `Option (List AnalysisRecord)`: `none` would mean the
Python code raised.  The only genuinely partial operation it performs is
the `[-1]` indexing on `line.split("**", 2)` (well-defined because `split`
never returns an empty list, which the totality theorem below proves). -/

/-- One parsed `{question, answer, source}` record. -/
structure AnalysisRecord where
  question : PyStr
  answer : PyStr
  source : PyStr
deriving Repr, DecidableEq, Inhabited

/-- Which field a label line most recently opened (`current_field`). -/
inductive FieldTag
  | questionF
  | answerF
  | sourceF
deriving Repr, DecidableEq

/-- The line scanner's accumulator: the three fields and `current_field`. -/
structure ScanState where
  question : PyStr
  answer : PyStr
  source : PyStr
  field : Option FieldTag
deriving Repr, DecidableEq

/-- The label-stripping step shared by the three label branches, e.g. for a
question line:
`line.split("**", 2)[-1] if "**" in line else line`, then
`.replace("Question:", "").strip()` when `"**Question" in line`, else
`line.replace("Question:", "").strip()` directly. -/
def labelText (starLabel plainLabel line : PyStr) : Option PyStr :=
  if pyIn starLabel line then
    (if pyIn (S "**") line then (pySplitN line (S "**") 2).getLast? else some line).map
      (fun t => pyStrip (pyReplace t plainLabel []))
  else
    some (pyStrip (pyReplace line plainLabel []))

/-- A continuation (unlabeled) line: appended, space-joined, to the current
field — but only when that field's accumulated text is non-empty
(`if current_field == "question" and question:` etc.). -/
def contLine (st : ScanState) (line : PyStr) : ScanState :=
  match st.field with
  | some .questionF =>
    if st.question ≠ [] then { st with question := st.question ++ S " " ++ line } else st
  | some .answerF =>
    if st.answer ≠ [] then { st with answer := st.answer ++ S " " ++ line } else st
  | some .sourceF =>
    if st.source ≠ [] then { st with source := st.source ++ S " " ++ line } else st
  | none => st

/-- One iteration of the Tier-1 line loop: classify the line by its prefix
(`**Question` / `Question:` / `Question ` and the analogous answer and
source variants, in the code's order) or treat it as a continuation. -/
def scanLine (st : ScanState) (line : PyStr) : Option ScanState :=
  if (S "**Question").isPrefixOf line || (S "Question:").isPrefixOf line ||
      (S "Question ").isPrefixOf line then
    (labelText (S "**Question") (S "Question:") line).map
      (fun t => { st with question := t, field := some .questionF })
  else if (S "**Answer").isPrefixOf line || (S "Answer:").isPrefixOf line ||
      (S "Answer ").isPrefixOf line then
    (labelText (S "**Answer") (S "Answer:") line).map
      (fun t => { st with answer := t, field := some .answerF })
  else if (S "**Source").isPrefixOf line || (S "Source:").isPrefixOf line ||
      (S "Source ").isPrefixOf line then
    (labelText (S "**Source") (S "Source:") line).map
      (fun t => { st with source := t, field := some .sourceF })
  else
    some (contLine st line)

/-- `lines = [line.strip() for line in section.split('\n') if line.strip()]`
after `section = section.strip()`. -/
def sectionLines (sec : PyStr) : List PyStr :=
  ((pySplit (pyStrip sec) (S "\n")).map pyStrip).filter (fun l => l ≠ [])

/-- Scan one section: run the line loop from the empty state, then strip the
three fields; a record results only when question and answer are both
non-empty, with `source` defaulting to `"Source not specified"`. -/
def scanSection (sec : PyStr) : Option (Option AnalysisRecord) :=
  ((sectionLines sec).foldlM scanLine ⟨[], [], [], none⟩).map (fun st =>
    let q := pyStrip st.question
    let a := pyStrip st.answer
    let src := pyStrip st.source
    if q ≠ [] ∧ a ≠ [] then
      some { question := q, answer := a,
             source := if src ≠ [] then src else S "Source not specified" }
    else none)

/-- One iteration of the section loop: skip a section whose strip is empty,
else scan it and append its record, if any. -/
def sectionStep (acc : List AnalysisRecord) (sec : PyStr) : Option (List AnalysisRecord) :=
  if pyStrip sec = [] then some acc
  else (scanSection sec).map (fun r =>
    match r with
    | some record => acc ++ [record]
    | none => acc)

/-- The section loop: the sections folded through `sectionStep`. -/
def sectionLoop (secs : List PyStr) : Option (List AnalysisRecord) :=
  secs.foldlM sectionStep []

/-! ### Tier 2: the `re.split` fallback

`question_pattern = r'(?:\*\*Question[:\s]*\*\*|Question[:\s]*)'` with
`re.IGNORECASE`.  At a given position the first alternative is literal
`**Question` (case-insensitive), a greedy run of `[:\s]`, then literal
`**`; the second is literal `Question` then a greedy run of `[:\s]`.  `*`
is not in the class `[:\s]`, so the greedy run never has to give characters
back: trying the greedy run and then the literal is exact, and no
backtracking is needed. -/

/-- The character class `[:\s]`. -/
def classColonSpace (c : Char) : Bool := c = ':' || pyIsSpace c

/-- Case-insensitive literal prefix test; `pat` is given lowercase. -/
def ciPre (pat s : PyStr) : Bool := pat.isPrefixOf (pyLower s)

/-- The length of the `question_pattern` match starting at `s`, if any
(first alternative first, as Python's `|` does). -/
def qMarkLen (s : PyStr) : Option Nat :=
  if ciPre (S "**question") s then
    let rest := s.drop 10
    let w := (rest.takeWhile classColonSpace).length
    if (S "**").isPrefixOf (rest.drop w) then some (10 + w + 2)
    else if ciPre (S "question") s then some (8 + ((s.drop 8).takeWhile classColonSpace).length)
    else none
  else if ciPre (S "question") s then
    some (8 + ((s.drop 8).takeWhile classColonSpace).length)
  else none

/-- `re.split(question_pattern, text, flags=re.IGNORECASE)`: scan left to
right, cutting a piece at every match (the pattern has no capture groups,
so only the pieces are returned).  The skip counter consumes the matched
marker, keeping the recursion structural. -/
def reSplitQGo : PyStr → Nat → PyStr → List PyStr
  | [], _, acc => [acc.reverse]
  | _ :: s, k + 1, acc => reSplitQGo s k acc
  | c :: s, 0, acc =>
    match qMarkLen (c :: s) with
    | some n => acc.reverse :: reSplitQGo s (n - 1) []
    | none => reSplitQGo s 0 (c :: acc)

/-- Tier 2's synthetic sections: split on the question markers, drop a
leading fragment with empty strip, re-attach a `"Question: "` prefix to
every fragment with non-empty strip. -/
def tier2Sections (t : PyStr) : List PyStr :=
  let parts := reSplitQGo t 0 []
  let parts :=
    match parts with
    | p :: rest => if pyStrip p = [] then rest else p :: rest
    | [] => []
  parts.foldl (fun acc p =>
    if pyStrip p ≠ [] then acc ++ [S "Question: " ++ pyStrip p] else acc) []

/-! ### Tier 3: the aggressive regex recovery

`qa_pattern` is
`(?:Question[:\s]*(?:\d+[:\.]?)?\s*)(.*?)(?:Answer[:\s]*)(.*?)(?:Source[:\s]*)(.*?)(?=Question|$)`
with `re.DOTALL | re.IGNORECASE` and `re.findall`.  Every alternation or
optional piece here is a literal or a character-class run whose characters
cannot begin the literal that follows, so the lazy groups expand to the
first position where the following literal matches and no backtracking into
an earlier group can ever succeed where this forward scan fails; `findall`
resumes at the end of each match (the zero-width lookahead), which is
either the end of the text or the next `Question` literal.  A fuel
parameter bounds the (well-founded but non-structural) iteration; fuel
`length + 1` can never run out because every match consumes at least the
eight characters of the `Question` literal. -/

/-- The index of the first case-insensitive occurrence of `pat` (given
lowercase) in `s`. -/
def findCi (pat : PyStr) : PyStr → Option Nat
  | [] => if pat.isEmpty then some 0 else none
  | c :: s => if ciPre pat (c :: s) then some 0 else (findCi pat s).map (· + 1)

/-- Where the lookahead `(?=Question|$)` first succeeds in `r`: at the next
case-insensitive `Question` literal if any, else at `$` (the end, or just
before a newline that ends the text). -/
def lookaheadPos (r : PyStr) : Nat :=
  let endPos := if r.getLast? = some '\n' then r.length - 1 else r.length
  match findCi (S "question") r with
  | some k => min k endPos
  | none => endPos

/-- Match the tail of `qa_pattern` against `s`, the text just after a
case-insensitive `Question` literal: consume `[:\s]*`, the optional
`\d+[:\.]?`, and `\s*`; then the three lazy groups, delimited by the
`Answer` and `Source` literals (each followed by a greedy `[:\s]*`) and the
final lookahead.  Returns the three captured groups and the remaining text
at the match's end. -/
def qaTail (s : PyStr) : Option (PyStr × PyStr × PyStr × PyStr) :=
  let s1 := s.dropWhile classColonSpace
  let dig := s1.takeWhile Char.isDigit
  let s2 :=
    if dig ≠ [] then
      match s1.drop dig.length with
      | c :: r => if c = ':' || c = '.' then r else c :: r
      | [] => []
    else s1
  let s3 := s2.dropWhile pyIsSpace
  match findCi (S "answer") s3 with
  | none => none
  | some i =>
    let g1 := s3.take i
    let r1 := (s3.drop (i + 6)).dropWhile classColonSpace
    match findCi (S "source") r1 with
    | none => none
    | some j =>
      let g2 := r1.take j
      let r2 := (r1.drop (j + 6)).dropWhile classColonSpace
      let k := lookaheadPos r2
      some (g1, g2, r2.take k, r2.drop k)

/-- `re.findall(qa_pattern, text, re.DOTALL | re.IGNORECASE)`: each match
begins at the next case-insensitive `Question` literal; when the tail fails
there (no later `Answer`, or no later `Source`), it fails at every later
start too, so the scan stops. -/
def qaFindGo : Nat → PyStr → List (PyStr × PyStr × PyStr)
  | 0, _ => []
  | fuel + 1, s =>
    match findCi (S "question") s with
    | none => []
    | some p =>
      match qaTail (s.drop (p + 8)) with
      | none => []
      | some (g1, g2, g3, rest) => (g1, g2, g3) :: qaFindGo fuel rest

/-- All `qa_pattern` matches of the text. -/
def qaFindall (t : PyStr) : List (PyStr × PyStr × PyStr) := qaFindGo (t.length + 1) t

/-- `re.sub(r'\*+', '', x)`: remove every asterisk. -/
def deStar (t : PyStr) : PyStr := t.filter (fun c => c ≠ '*')

/-- Tier 3's record list: each regex match is stripped, de-asterisked and
stripped again; a record results when question and answer are non-empty,
with the usual source default.  (`len(match) >= 2` and `len(match) > 2` are
always true of the 3-tuples `findall` returns.) -/
def tier3Records (t : PyStr) : List AnalysisRecord :=
  (qaFindall t).foldl (fun acc m =>
    let q := pyStrip (deStar (pyStrip m.1))
    let a := pyStrip (deStar (pyStrip m.2.1))
    let src := pyStrip (deStar (pyStrip m.2.2))
    if q ≠ [] ∧ a ≠ [] then
      acc ++ [{ question := q, answer := a,
                source := if src ≠ [] then src else S "Source not specified" }]
    else acc) []

/-- The parser's section selection: split on `---` when the (stripped) text
contains it, else the Tier-2 question-marker split. -/
def parserSections (t : PyStr) : List PyStr :=
  if pyIn (S "---") t then pySplit t (S "---") else tier2Sections t

/-- `parse_analysis_results(analysis_text)`: strip the text; split into
sections (`parserSections`); run the section loop; when it produced no
records, fall back to Tier 3. -/
def parseAnalysisResults (analysisText : PyStr) : Option (List AnalysisRecord) :=
  (sectionLoop (parserSections (pyStrip analysisText))).map (fun results =>
    if results = [] then tier3Records (pyStrip analysisText) else results)

/-! ## Question Matcher (`display_all_questions_with_results`, src/app.py)

The display function's pure core: `result_map` is a Python dict built by
insertion (later records with an equal key overwrite the value in place,
keeping the key's original position); the per-question cascade is exact
match, then substring match over the dict items in order, then positional
fallback `results[i-1]` for the 1-based enumeration index `i`. -/

/-- `result['question'].strip().lower()`, the `result_map` key. -/
def recKey (r : AnalysisRecord) : PyStr := pyLower (pyStrip r.question)

/-- Python-dict insertion into an association list: an existing key keeps
its position and gets the new value; a new key is appended. -/
def dictInsert (m : List (PyStr × AnalysisRecord)) (k : PyStr) (v : AnalysisRecord) :
    List (PyStr × AnalysisRecord) :=
  match m with
  | [] => [(k, v)]
  | (k', v') :: rest =>
    if k' = k then (k', v) :: rest else (k', v') :: dictInsert rest k v

/-- `result_map`: the records folded into the dict in order. -/
def buildResultMap (results : List AnalysisRecord) : List (PyStr × AnalysisRecord) :=
  results.foldl (fun m r => dictInsert m (recKey r) r) []

/-- Python dict lookup. -/
def dictFind (m : List (PyStr × AnalysisRecord)) (k : PyStr) : Option AnalysisRecord :=
  match m with
  | [] => none
  | (k', v) :: rest => if k' = k then some v else dictFind rest k

/-- Strategy 1: `result_map[question.strip().lower()]` when present. -/
def matchExact (m : List (PyStr × AnalysisRecord)) (question : PyStr) :
    Option AnalysisRecord :=
  dictFind m (pyLower (pyStrip question))

/-- Strategy 2: the first dict item (in insertion order) with
`question.lower() in res_question or res_question in question.lower()`. -/
def matchSub (m : List (PyStr × AnalysisRecord)) (question : PyStr) :
    Option AnalysisRecord :=
  match m with
  | [] => none
  | (k, v) :: rest =>
    if pyIn (pyLower question) k || pyIn k (pyLower question) then some v
    else matchSub rest question

/-- The full cascade for the question at 0-based index `idx` (the code
enumerates from 1 and indexes `results` with `i - 1`): exact, substring,
then positional. -/
def resolveOne (results : List AnalysisRecord) (m : List (PyStr × AnalysisRecord))
    (idx : Nat) (question : PyStr) : Option AnalysisRecord :=
  match matchExact m question with
  | some r => some r
  | none =>
    match matchSub m question with
    | some r => some r
    | none => results[idx]?

/-- The matcher over the whole canonical question list: one entry per
question, in order, pairing it with the cascade's result. -/
def resolveAll (questions : List PyStr) (results : List AnalysisRecord) :
    List (PyStr × Option AnalysisRecord) :=
  let m := buildResultMap results
  questions.enum.map (fun p => (p.2, resolveOne results m p.1 p.2))

/-- What the display layer renders for one resolved entry (the answer text
and source text; for a missing record, the code's explicit placeholders
instead of omitting the question). -/
def renderEntry : Option AnalysisRecord → PyStr × PyStr
  | some r => (r.answer, r.source)
  | none => (S "No specific analysis found for this question",
             S "Question not processed in current analysis")

/-! ## Table Heuristic Extractor (src/tabular.py)

`extract_tables_with_enhanced_patterns` and `create_table_from_data`.  A
table is modelled by its column names and rows (the returned dict's
`table_name`/`description`/`extraction_method` strings do not bear on any
claim and are not modelled; `determine_table_type`'s result is discarded by
the code itself).

One behavior of `create_table_from_data` needs care: after the
`unique_columns` loop the code builds a `pandas.DataFrame` and runs
`df[col] = df[col].apply(clean_cell_value)` for each column label.  When
`unique_columns` still contains a duplicate label (possible, because a
substituted synthetic name `Column_{i+1}` is appended without re-checking
membership), `df[col]` yields a DataFrame, `apply` passes a whole column
Series to `clean_cell_value`, and its `if not value:` raises
`ValueError: The truth value of a Series is ambiguous`; the surrounding
`try`/`except` then returns `None`, discarding the table.  The embedding
makes that path explicit: `buildTable` returns `none` when the deduplicated
column list still has a duplicate. -/

/-- An extracted table: ordered column names and rows of cells. -/
structure PyTable where
  columns : List PyStr
  rows : List (List PyStr)
deriving Repr, DecidableEq

/-- `clean_cell_value`: strip, remove leading/trailing `$` runs and
leading/trailing `:` runs, strip again; empty input stays empty. -/
def cleanCellValue (v : PyStr) : PyStr :=
  if v = [] then []
  else
    let a := pyStrip v
    let b := (a.dropWhile (· = '$')).reverse.dropWhile (· = '$') |>.reverse
    let c := (b.dropWhile (· = ':')).reverse.dropWhile (· = ':') |>.reverse
    pyStrip c

/-- Worker for `pyLineSplit`, the table row splitter
`re.split(r'\s{2,}|\t|\|', line)`: a whitespace run of length at least two
(consumed greedily), a single tab, or a single pipe is a separator. -/
def lineSplitGo : PyStr → Nat → PyStr → List PyStr
  | [], _, acc => [acc.reverse]
  | _ :: s, k + 1, acc => lineSplitGo s k acc
  | c :: s, 0, acc =>
    if pyIsSpace c then
      if (s.takeWhile pyIsSpace).length > 0 then
        acc.reverse :: lineSplitGo s (s.takeWhile pyIsSpace).length []
      else if c = '\t' then acc.reverse :: lineSplitGo s 0 []
      else lineSplitGo s 0 (c :: acc)
    else if c = '|' then acc.reverse :: lineSplitGo s 0 []
    else lineSplitGo s 0 (c :: acc)

/-- `re.split(r'\s{2,}|\t|\|', line)`. -/
def pyLineSplit (line : PyStr) : List PyStr := lineSplitGo line 0 []

/-- `parts = [clean_cell_value(part) for part in parts if part.strip()]`. -/
def rowParts (line : PyStr) : List PyStr :=
  ((pyLineSplit line).filter (fun p => pyStrip p ≠ [])).map cleanCellValue

/-- The `header_indicators` literal of `is_likely_header_row`. -/
def headerIndicators : List PyStr :=
  [S "heavy metal", S "symbol", S "specification", S "vendor", S "ingredient",
   S "energy", S "protein", S "fat", S "nutrient", S "value", S "unit",
   S "test", S "parameter", S "method", S "result", S "limit",
   S "name", S "description", S "code", S "date"]

/-- `is_likely_header_row(parts)`: some indicator occurs in the
lowercased space-join of the cells. -/
def isLikelyHeaderRow (parts : List PyStr) : Bool :=
  !parts.isEmpty &&
    headerIndicators.any (fun ind => pyIn ind (pyLower (pyJoin (S " ") parts)))

/-- `most_common_cols = max(set(col_counts), key=col_counts.count)`:
the candidate with the highest frequency.  On a frequency tie CPython's
`max` keeps the first candidate in the set's iteration order (the
smallest value for the single-digit column counts that arise here); the
model ties to the smallest.  The shape invariant below holds whatever the
tie choice, since rows and columns are normalized to the same `mcc`. -/
def modeCols (counts : List Nat) : Nat :=
  let cands := (List.range ((counts.foldr max 0) + 1)).filter (fun v => v ∈ counts)
  cands.foldl (fun best v =>
    if counts.count best < counts.count v then v else best) cands.headI

/-- `f'Column_{i+1}'`. -/
def synthName (i : Nat) : PyStr := S "Column_" ++ (Nat.repr (i + 1)).toList

/-- The `unique_columns` loop: an empty or already-seen name is replaced by
its positional synthetic name (appended without a second membership
check). -/
def uniqueColumns (columnNames : List PyStr) : List PyStr :=
  columnNames.enum.foldl (fun acc p =>
    acc ++ [if p.2 = [] ∨ p.2 ∈ acc then synthName p.1 else p.2]) []

/-- The header-resolution step of `create_table_from_data`: use the
provided headers when their count matches; else treat the first row as a
header when none of its cells contains a digit (removing it from the
data); else synthesize `Column_N` names.  Returns the column-name list and
the data rows. -/
def headerSplit (headers : List PyStr) (mcc : Nat)
    (consistentRows : List (List PyStr)) : List PyStr × List (List PyStr) :=
  if headers ≠ [] ∧ headers.length = mcc then
    (headers.map cleanCellValue, consistentRows)
  else if consistentRows.headI.all (fun cell => !cell.any Char.isDigit) then
    (consistentRows.headI.map cleanCellValue, consistentRows.tail)
  else ((List.range mcc).map synthName, consistentRows)

/-- `create_table_from_data(table_data, headers, ...)` up to the DataFrame
stage: consistent column count, row filtering and padding, header
detection, column-name deduplication, per-cell cleaning, and the final
empty-table checks.  Returns `none` where the code returns `None`
(including the pandas `ValueError` path described above). -/
def buildTable (tableData : List (List PyStr)) (headers : List PyStr) :
    Option PyTable :=
  if tableData = [] then none
  else
    let mcc := modeCols (tableData.map List.length)
    let consistentRows := (tableData.filter (fun row => 2 ≤ row.length)).map
      (fun row => row.take mcc ++ List.replicate (mcc - row.length) [])
    if consistentRows.length < 2 then none
    else
      let sp := headerSplit headers mcc consistentRows
      let cols := uniqueColumns sp.1
      if ¬ cols.Nodup then none
      else
        let kept := (sp.2.map (fun row => row.map cleanCellValue)).filter
          (fun row => pyStrip row.headI ≠ [])
        if kept = [] then none
        else some { columns := cols, rows := kept }

/-- The accumulating state of the line loop of
`extract_tables_with_enhanced_patterns`. -/
structure TabScan where
  tables : List PyTable
  current : List (List PyStr)
  headers : List PyStr

/-- Flush the accumulated block: a table is attempted only from a block of
at least two collected rows. -/
def flushTab (st : TabScan) : List PyTable :=
  if st.current ≠ [] ∧ 2 ≤ st.current.length then
    match buildTable st.current st.headers with
    | some t => st.tables ++ [t]
    | none => st.tables
  else st.tables

/-- One line of the scan: a blank line flushes the block; a line with at
least two cells either becomes the block's headers (first such line that
looks like a header row) or a data row; other lines are ignored. -/
def tabLine (st : TabScan) (rawLine : PyStr) : TabScan :=
  let line := pyStrip rawLine
  if line = [] then { tables := flushTab st, current := [], headers := [] }
  else
    let parts := rowParts line
    if 2 ≤ parts.length then
      if st.headers = [] ∧ isLikelyHeaderRow parts then { st with headers := parts }
      else { st with current := st.current ++ [parts] }
    else st

/-- `extract_tables_with_enhanced_patterns(ocr_text, ...)`: scan the lines,
flushing at blank lines and once more at the end. -/
def extractTables (ocrText : PyStr) : List PyTable :=
  flushTab ((pySplit ocrText (S "\n")).foldl tabLine ⟨[], [], []⟩)

/-! ## String-operation lemmas -/

theorem pyIn_iff (sub s : PyStr) : pyIn sub s = true ↔ sub <:+: s := by
  induction s with
  | nil =>
    simp only [pyIn, List.isEmpty_iff]
    constructor
    · rintro rfl; exact List.nil_infix
    · intro h; simpa using h.length_le
  | cons c t ih =>
    simp only [pyIn, Bool.or_eq_true, List.isPrefixOf_iff_prefix, ih,
      List.infix_cons_iff]

theorem prefix_append_char {sub z y : PyStr} {c : Char} (hc : c ∉ sub) :
    sub <+: (z ++ c :: y) ↔ sub <+: z := by
  induction z generalizing sub with
  | nil =>
    cases sub with
    | nil => simp
    | cons a sub' =>
      simp only [List.nil_append, List.cons_prefix_cons]
      constructor
      · rintro ⟨rfl, -⟩; exact absurd (List.mem_cons_self a sub') hc
      · intro h; simpa using h.length_le
  | cons d z' ih =>
    cases sub with
    | nil => simp
    | cons a sub' =>
      have : c ∉ sub' := fun h => hc (List.mem_cons_of_mem a h)
      simp only [List.cons_append, List.cons_prefix_cons, ih this]

theorem infix_append_char {sub x y : PyStr} {c : Char} (hc : c ∉ sub) :
    sub <:+: (x ++ c :: y) ↔ sub <:+: x ∨ sub <:+: y := by
  cases sub with
  | nil => simp [List.nil_infix]
  | cons a sub' =>
    induction x with
    | nil =>
      simp only [List.nil_append, List.infix_cons_iff]
      constructor
      · rintro (h | h)
        · rcases List.cons_prefix_cons.mp h with ⟨rfl, -⟩
          exact absurd (List.mem_cons_self a sub') hc
        · exact Or.inr h
      · rintro (h | h)
        · simpa using h.length_le
        · exact Or.inr h
    | cons d x' ih =>
      simp only [List.cons_append, List.infix_cons_iff, ih, List.cons_prefix_cons]
      have hc' : c ∉ sub' := fun hm => hc (List.mem_cons_of_mem a hm)
      constructor
      · rintro (⟨rfl, h⟩ | h | h)
        · exact Or.inl (Or.inl ⟨rfl, (prefix_append_char hc').mp h⟩)
        · exact Or.inl (Or.inr h)
        · exact Or.inr h
      · rintro ((⟨rfl, h⟩ | h) | h)
        · exact Or.inl ⟨rfl, (prefix_append_char hc').mpr h⟩
        · exact Or.inr (Or.inl h)
        · exact Or.inr (Or.inr h)

theorem infix_append_head (pre : PyStr) {sub' y : PyStr} {h : Char} (hp : h ∉ pre) :
    (h :: sub') <:+: (pre ++ y) ↔ (h :: sub') <:+: y := by
  induction pre with
  | nil => simp
  | cons d pre' ih =>
    have hd : h ≠ d := fun he => hp (he ▸ List.mem_cons_self d pre')
    have hp' : h ∉ pre' := fun hm => hp (List.mem_cons_of_mem d hm)
    simp only [List.cons_append, List.infix_cons_iff, ih hp']
    constructor
    · rintro (hpre | hinf)
      · rcases List.cons_prefix_cons.mp hpre with ⟨rfl, -⟩
        exact absurd rfl hd
      · exact hinf
    · intro hinf
      exact Or.inr hinf

theorem dropWhile_append_all {p : Char → Bool} {l₁ l₂ : PyStr}
    (h : ∀ c ∈ l₁, p c = true) :
    List.dropWhile p (l₁ ++ l₂) = List.dropWhile p l₂ := by
  induction l₁ with
  | nil => simp
  | cons c t ih =>
    have hc := h c (List.mem_cons_self c t)
    simp only [List.cons_append, List.dropWhile_cons_of_pos hc]
    exact ih (fun x hx => h x (List.mem_cons_of_mem c hx))

theorem pyStrip_ws_left {wsl s : PyStr} (hl : ∀ c ∈ wsl, pyIsSpace c = true) :
    pyStrip (wsl ++ s) = pyStrip s := by
  unfold pyStrip
  rw [dropWhile_append_all hl]

theorem dropWhile_all_nil {p : Char → Bool} {l : PyStr}
    (h : ∀ c ∈ l, p c = true) : List.dropWhile p l = [] := by
  have h2 : List.dropWhile p (l ++ []) = List.dropWhile p [] := dropWhile_append_all h
  simpa using h2

theorem pyStrip_ws_right {s wsr : PyStr} (hr : ∀ c ∈ wsr, pyIsSpace c = true) :
    pyStrip (s ++ wsr) = pyStrip s := by
  unfold pyStrip
  rcases h : List.dropWhile pyIsSpace s with _ | ⟨d, ds⟩
  · rw [List.dropWhile_append, h]
    simp [dropWhile_all_nil hr]
  · rw [List.dropWhile_append, h]
    simp only [List.isEmpty_cons, Bool.false_eq_true, if_false]
    rw [show ((d :: ds) ++ wsr).reverse = wsr.reverse ++ (d :: ds).reverse by simp]
    rw [dropWhile_append_all (fun c hc => hr c (by simpa using hc))]

theorem pyStrip_of_ends {core : PyStr} (hne : core ≠ [])
    (hh : pyIsSpace core.headI = false) (hg : pyIsSpace core.getLastI = false) :
    pyStrip core = core := by
  obtain ⟨l', x, rfl⟩ : ∃ l' x, core = l' ++ [x] := by
    rcases List.eq_nil_or_concat core with h | ⟨L, b, h⟩
    · exact absurd h hne
    · exact ⟨L, b, by simpa [List.concat_eq_append] using h⟩
  have hgx : pyIsSpace x = false := by
    simpa [List.getLastI_eq_getLast?] using hg
  unfold pyStrip
  have h1 : List.dropWhile pyIsSpace (l' ++ [x]) = l' ++ [x] := by
    cases l' with
    | nil =>
      have : List.dropWhile pyIsSpace (x :: ([] : PyStr)) = x :: ([] : PyStr) :=
        List.dropWhile_cons_of_neg (by simp [hgx])
      simpa using this
    | cons c t =>
      have hc : pyIsSpace c = false := by simpa [List.headI] using hh
      have : List.dropWhile pyIsSpace (c :: (t ++ [x])) = c :: (t ++ [x]) :=
        List.dropWhile_cons_of_neg (by simp [hc])
      simpa using this
  rw [h1, List.reverse_append]
  simp only [List.reverse_cons, List.reverse_nil, List.nil_append, List.singleton_append]
  rw [List.dropWhile_cons_of_neg (by simp [hgx])]
  simp

theorem pyStrip_sandwich {wsl wsr core : PyStr}
    (hl : ∀ c ∈ wsl, pyIsSpace c = true) (hr : ∀ c ∈ wsr, pyIsSpace c = true)
    (hne : core ≠ []) (hh : pyIsSpace core.headI = false)
    (hg : pyIsSpace core.getLastI = false) :
    pyStrip (wsl ++ core ++ wsr) = core := by
  rw [List.append_assoc, pyStrip_ws_left hl, pyStrip_ws_right hr,
    pyStrip_of_ends hne hh hg]

theorem pyStrip_trimmed_head {t : PyStr} (h : pyStrip t = t) (hne : t ≠ []) :
    pyIsSpace t.headI = false := by
  unfold pyStrip at h
  set u := t.dropWhile pyIsSpace with hu
  have hsuf : u <:+ t := List.dropWhile_suffix pyIsSpace
  have hlen1 : (((u.reverse.dropWhile pyIsSpace)).reverse).length ≤ u.length := by
    simpa using (List.dropWhile_suffix (l := u.reverse) pyIsSpace).length_le
  have hlen : u.length = t.length := by
    have h2 := congrArg List.length h
    have hlen2 : u.length ≤ t.length := hsuf.length_le
    omega
  have hut : u = t := hsuf.eq_of_length hlen
  cases t with
  | nil => exact absurd rfl hne
  | cons c t' =>
    cases hc : pyIsSpace c with
    | false => simp [List.headI, hc]
    | true =>
      exfalso
      have h2 : u = List.dropWhile pyIsSpace t' := by
        rw [hu, List.dropWhile_cons_of_pos hc]
      have hle : u.length ≤ t'.length :=
        h2 ▸ (List.dropWhile_suffix (l := t') pyIsSpace).length_le
      rw [hut] at hle
      simp at hle

theorem pyStrip_trimmed_last {t : PyStr} (h : pyStrip t = t) (hne : t ≠ []) :
    pyIsSpace t.getLastI = false := by
  unfold pyStrip at h
  set u := t.dropWhile pyIsSpace with hu
  have hsuf : u <:+ t := List.dropWhile_suffix pyIsSpace
  have hlen1 : (((u.reverse.dropWhile pyIsSpace)).reverse).length ≤ u.length := by
    simpa using (List.dropWhile_suffix (l := u.reverse) pyIsSpace).length_le
  have hlen : u.length = t.length := by
    have h2 := congrArg List.length h
    have hlen2 : u.length ≤ t.length := hsuf.length_le
    omega
  have hut : u = t := hsuf.eq_of_length hlen
  rw [hut] at h
  have hrev : t.reverse.dropWhile pyIsSpace = t.reverse := by
    have := congrArg List.reverse h
    simpa using this
  obtain ⟨l', x, rfl⟩ : ∃ l' x, t = l' ++ [x] := by
    rcases List.eq_nil_or_concat t with h' | ⟨L, b, h'⟩
    · exact absurd h' hne
    · exact ⟨L, b, by simpa [List.concat_eq_append] using h'⟩
  rw [show (l' ++ [x]).reverse = x :: l'.reverse by simp] at hrev
  have hgl : (l' ++ [x]).getLastI = x := by
    simp [List.getLastI_eq_getLast?]
  rw [hgl]
  cases hx : pyIsSpace x with
  | false => rfl
  | true =>
    exfalso
    rw [List.dropWhile_cons_of_pos hx] at hrev
    have hle := (List.dropWhile_suffix (l := l'.reverse) pyIsSpace).length_le
    rw [hrev] at hle
    simp at hle

theorem pyStrip_nil : pyStrip [] = [] := rfl

theorem splitGo_skip (sep : PyStr) :
    ∀ (x r acc : PyStr), splitGo sep (x ++ r) x.length acc = splitGo sep r 0 acc := by
  intro x
  induction x with
  | nil => intro r acc; rfl
  | cons c t ih =>
    intro r acc
    simpa [splitGo] using ih r acc

theorem splitGo_through {sep b : PyStr} (hsep : sep ≠ []) :
    ∀ (a acc : PyStr),
      (∀ a2, a2 <:+ a → a2 ≠ [] → ¬ sep.isPrefixOf (a2 ++ sep ++ b) = true) →
      splitGo sep (a ++ sep ++ b) 0 acc = (acc.reverse ++ a) :: pySplit b sep := by
  intro a
  induction a with
  | nil =>
    intro acc _
    rcases sep with _ | ⟨s0, sep'⟩
    · exact absurd rfl hsep
    · have hpre : (s0 :: sep').isPrefixOf ((s0 :: sep') ++ b) = true :=
        List.isPrefixOf_iff_prefix.mpr (List.prefix_append _ _)
      simp only [List.nil_append, List.cons_append, splitGo, List.append_eq] at hpre ⊢
      rw [if_pos hpre]
      have hskip := splitGo_skip (s0 :: sep') sep' b []
      simp only [List.length_cons, Nat.add_sub_cancel] at *
      rw [hskip]
      simp [pySplit]
  | cons c a' ih =>
    intro acc hno
    have hfalse : sep.isPrefixOf ((c :: a') ++ sep ++ b) = false := by
      have := hno (c :: a') (List.suffix_refl _) (by simp)
      revert this
      cases sep.isPrefixOf ((c :: a') ++ sep ++ b) <;> simp
    have hno' : ∀ a2, a2 <:+ a' → a2 ≠ [] → ¬ sep.isPrefixOf (a2 ++ sep ++ b) = true := by
      intro a2 hsuf hne
      exact hno a2 (hsuf.trans (List.suffix_cons c a')) hne
    simp only [List.cons_append, splitGo, List.append_eq]
    rw [show ((c :: a') ++ sep ++ b) = c :: (a' ++ sep ++ b) by simp] at hfalse
    rw [hfalse]
    simp only [Bool.false_eq_true, if_false]
    rw [ih (c :: acc) hno']
    simp

theorem splitGo_no_match {sep : PyStr} :
    ∀ (a acc : PyStr), ¬ sep <:+: a →
      splitGo sep a 0 acc = [acc.reverse ++ a] := by
  intro a
  induction a with
  | nil => intro acc _; simp [splitGo]
  | cons c a' ih =>
    intro acc hni
    have hfalse : sep.isPrefixOf (c :: a') = false := by
      rcases h : sep.isPrefixOf (c :: a') with _ | _
      · rfl
      · exact absurd ((List.isPrefixOf_iff_prefix.mp h).isInfix) hni
    simp only [splitGo, hfalse, Bool.false_eq_true, if_false]
    have hni' : ¬ sep <:+: a' := fun h => hni (h.trans (List.suffix_cons c a').isInfix)
    rw [ih (c :: acc) hni']
    simp

theorem pySplit_single_piece {sep a : PyStr} (h : ¬ sep <:+: a) :
    pySplit a sep = [a] := by
  simpa using splitGo_no_match a [] h

theorem pySplit_append {sep a b : PyStr} (hsep : sep ≠ [])
    (hno : ∀ a2, a2 <:+ a → a2 ≠ [] → ¬ sep.isPrefixOf (a2 ++ sep ++ b) = true) :
    pySplit (a ++ sep ++ b) sep = a :: pySplit b sep := by
  simpa using splitGo_through hsep a [] hno

theorem getLastI_of_suffix {a2 a : PyStr} (h : a2 <:+ a) (hne : a2 ≠ []) :
    a2.getLastI = a.getLastI := by
  obtain ⟨pre, rfl⟩ := h
  simp only [List.getLastI_eq_getLast?]
  rw [List.getLast?_append_of_ne_nil _ hne]

theorem noEarly_dashes {a b : PyStr} (hne : a ≠ []) (hlast : a.getLastI = '\n')
    (hni : ¬ (S "---") <:+: a) :
    ∀ a2, a2 <:+ a → a2 ≠ [] → ¬ (S "---").isPrefixOf (a2 ++ S "---" ++ b) = true := by
  intro a2 hsuf hne2 hpre
  have hp : (S "---") <+: (a2 ++ S "---" ++ b) := List.isPrefixOf_iff_prefix.mp hpre
  by_cases hlen : 3 ≤ a2.length
  · have h1 : (S "---") <+: a2 ++ (S "---" ++ b) := by simpa [List.append_assoc] using hp
    have h2 : a2 <+: a2 ++ (S "---" ++ b) := List.prefix_append _ _
    have h3 : (S "---") <+: a2 := List.prefix_of_prefix_length_le h1 h2 (by simpa [S] using hlen)
    exact hni (List.IsInfix.trans h3.isInfix hsuf.isInfix)
  · have h1 : a2 <+: a2 ++ (S "---" ++ b) := List.prefix_append _ _
    have h2 : (S "---") <+: a2 ++ (S "---" ++ b) := by simpa [List.append_assoc] using hp
    have h3 : a2 <+: (S "---") := List.prefix_of_prefix_length_le h1 h2
      (by have h4 : (S "---").length = 3 := rfl; omega)
    have hmem : ∀ c ∈ a2, c = '-' := by
      intro c hc
      have := h3.sublist.subset hc
      simpa [S] using this
    have hlast2 : a2.getLastI = '\n' := by
      rw [getLastI_of_suffix hsuf hne2, hlast]
    obtain ⟨l', x, rfl⟩ : ∃ l' x, a2 = l' ++ [x] := by
      rcases List.eq_nil_or_concat a2 with h' | ⟨L, bb, h'⟩
      · exact absurd h' hne2
      · exact ⟨L, bb, by simpa [List.concat_eq_append] using h'⟩
    have hx : x = '-' := hmem x (by simp)
    have : (l' ++ [x]).getLastI = x := by simp [List.getLastI_eq_getLast?]
    rw [this] at hlast2
    rw [hx] at hlast2
    exact absurd hlast2 (by decide)

theorem noEarly_char {ch : Char} {a b : PyStr} (hni : ch ∉ a) :
    ∀ a2, a2 <:+ a → a2 ≠ [] → ¬ ([ch]).isPrefixOf (a2 ++ [ch] ++ b) = true := by
  intro a2 hsuf hne2 hpre
  have hp : [ch] <+: (a2 ++ [ch] ++ b) := List.isPrefixOf_iff_prefix.mp hpre
  rcases a2 with _ | ⟨x, a2'⟩
  · exact absurd rfl hne2
  · have hx : ch = x := by simpa using hp
    have hm : ch ∈ (x :: a2') := by rw [hx]; exact List.mem_cons_self x a2'
    exact hni (hsuf.sublist.subset hm)

theorem singleton_infix_iff {c : Char} {l : PyStr} : ([c] <:+: l) ↔ c ∈ l := by
  constructor
  · intro h
    exact h.sublist.subset (List.mem_cons_self c [])
  · intro h
    obtain ⟨s, t, rfl⟩ := List.append_of_mem h
    exact ⟨s, t, by simp⟩

theorem replaceGo_skip (old new : PyStr) :
    ∀ (x r : PyStr), replaceGo old new (x ++ r) x.length = replaceGo old new r 0 := by
  intro x
  induction x with
  | nil => intro r; rfl
  | cons c t ih => intro r; simpa [replaceGo] using ih r

theorem replaceGo_no_match {old new : PyStr} :
    ∀ (s : PyStr), ¬ old <:+: s → replaceGo old new s 0 = s := by
  intro s
  induction s with
  | nil => intro _; rfl
  | cons c s' ih =>
    intro hni
    have hfalse : old.isPrefixOf (c :: s') = false := by
      rcases h : old.isPrefixOf (c :: s') with _ | _
      · rfl
      · exact absurd ((List.isPrefixOf_iff_prefix.mp h).isInfix) hni
    simp only [replaceGo, hfalse, Bool.false_eq_true, if_false]
    rw [ih (fun h => hni (h.trans (List.suffix_cons c s').isInfix))]

theorem pyReplace_no_match {old new s : PyStr} (hni : ¬ old <:+: s) :
    pyReplace s old new = s := replaceGo_no_match s hni

theorem pyReplace_label {old new rest : PyStr} (hold : old ≠ [])
    (hni : ¬ old <:+: rest) :
    pyReplace (old ++ rest) old new = new ++ rest := by
  unfold pyReplace
  rcases old with _ | ⟨o, ot⟩
  · exact absurd rfl hold
  · have hpre : (o :: ot).isPrefixOf ((o :: ot) ++ rest) = true :=
      List.isPrefixOf_iff_prefix.mpr (List.prefix_append _ _)
    rw [show ((o :: ot) ++ rest) = o :: (ot ++ rest) by simp]
    rw [show replaceGo (o :: ot) new (o :: (ot ++ rest)) 0 =
      if (o :: ot).isPrefixOf (o :: (ot ++ rest)) = true then
        new ++ replaceGo (o :: ot) new (ot ++ rest) ((o :: ot).length - 1)
      else o :: replaceGo (o :: ot) new (ot ++ rest) 0 from rfl]
    rw [show (o :: (ot ++ rest)) = (o :: ot) ++ rest by simp] at *
    rw [if_pos hpre]
    have hskip := replaceGo_skip (o :: ot) new ot rest
    simp only [List.length_cons, Nat.add_sub_cancel] at hskip ⊢
    rw [hskip, replaceGo_no_match rest hni]

theorem pyIn_eq_false_iff {sub s : PyStr} : pyIn sub s = false ↔ ¬ sub <:+: s := by
  rw [← pyIn_iff]
  cases pyIn sub s <;> simp

theorem labelText_of {star plain q : PyStr} (hplain : plain ≠ [])
    (hin : pyIn star (plain ++ ' ' :: q) = false)
    (hni : ¬ plain <:+: (' ' :: q)) (hq : pyStrip q = q) :
    labelText star plain (plain ++ ' ' :: q) = some q := by
  unfold labelText
  rw [hin]
  simp only [Bool.false_eq_true, if_false]
  rw [show plain ++ ' ' :: q = plain ++ ([' '] ++ q) by simp]
  rw [pyReplace_label hplain (by simpa using hni)]
  simp only [List.nil_append]
  rw [show ([' '] ++ q : PyStr) = [' '] ++ q from rfl,
    pyStrip_ws_left (by intro c hc; simp at hc; simp [hc, pyIsSpace])]
  exact congrArg some hq

theorem scanLine_question (st : ScanState) {q : PyStr}
    (h1 : ¬ (S "**Question") <:+: q) (h2 : ¬ (S "Question:") <:+: q)
    (hq : pyStrip q = q) :
    scanLine st (S "Question: " ++ q) =
      some { st with question := q, field := some FieldTag.questionF } := by
  have c1 : (S "**Question").isPrefixOf (S "Question: " ++ q) = false := by
    simp [S, List.isPrefixOf]
  have c2 : (S "Question:").isPrefixOf (S "Question: " ++ q) = true := by
    simp [S, List.isPrefixOf]
  have hin : pyIn (S "**Question") (S "Question: " ++ q) = false := by
    rw [pyIn_eq_false_iff]
    rw [show (S "Question: " ++ q) = (S "Question: ") ++ q from rfl]
    rw [show (S "**Question") = '*' :: (S "*Question") from rfl]
    rw [infix_append_head _ (by decide)]
    exact h1
  have hni : ¬ (S "Question:") <:+: (' ' :: q) := by
    rw [show (' ' :: q) = [' '] ++ q by simp]
    rw [show (S "Question:") = 'Q' :: (S "uestion:") from rfl]
    rw [infix_append_head _ (by decide)]
    exact h2
  unfold scanLine
  rw [c1, c2]
  simp only [Bool.false_or, Bool.true_or, if_pos rfl]
  rw [show (S "Question: " ++ q) = (S "Question:") ++ ' ' :: q from rfl]
  rw [labelText_of (by decide) (by rw [show (S "Question:") ++ ' ' :: q = S "Question: " ++ q from rfl]; exact hin) hni hq]
  rfl

theorem scanLine_answer (st : ScanState) {a : PyStr}
    (h1 : ¬ (S "**Answer") <:+: a) (h2 : ¬ (S "Answer:") <:+: a)
    (ha : pyStrip a = a) :
    scanLine st (S "Answer: " ++ a) =
      some { st with answer := a, field := some FieldTag.answerF } := by
  have q1 : (S "**Question").isPrefixOf (S "Answer: " ++ a) = false := by
    simp [S, List.isPrefixOf]
  have q2 : (S "Question:").isPrefixOf (S "Answer: " ++ a) = false := by
    simp [S, List.isPrefixOf]
  have q3 : (S "Question ").isPrefixOf (S "Answer: " ++ a) = false := by
    simp [S, List.isPrefixOf]
  have c1 : (S "**Answer").isPrefixOf (S "Answer: " ++ a) = false := by
    simp [S, List.isPrefixOf]
  have c2 : (S "Answer:").isPrefixOf (S "Answer: " ++ a) = true := by
    simp [S, List.isPrefixOf]
  have hin : pyIn (S "**Answer") (S "Answer: " ++ a) = false := by
    rw [pyIn_eq_false_iff]
    rw [show (S "Answer: " ++ a) = (S "Answer: ") ++ a from rfl]
    rw [show (S "**Answer") = '*' :: (S "*Answer") from rfl]
    rw [infix_append_head _ (by decide)]
    exact h1
  have hni : ¬ (S "Answer:") <:+: (' ' :: a) := by
    rw [show (' ' :: a) = [' '] ++ a by simp]
    rw [show (S "Answer:") = 'A' :: (S "nswer:") from rfl]
    rw [infix_append_head _ (by decide)]
    exact h2
  unfold scanLine
  rw [q1, q2, q3, c1, c2]
  simp only [Bool.false_or, Bool.true_or, Bool.or_self, Bool.false_eq_true, if_false,
    if_pos rfl]
  rw [show (S "Answer: " ++ a) = (S "Answer:") ++ ' ' :: a from rfl]
  rw [labelText_of (by decide) (by rw [show (S "Answer:") ++ ' ' :: a = S "Answer: " ++ a from rfl]; exact hin) hni ha]
  rfl

theorem scanLine_source (st : ScanState) {s : PyStr}
    (h1 : ¬ (S "**Source") <:+: s) (h2 : ¬ (S "Source:") <:+: s)
    (hs : pyStrip s = s) :
    scanLine st (S "Source: " ++ s) =
      some { st with source := s, field := some FieldTag.sourceF } := by
  have q1 : (S "**Question").isPrefixOf (S "Source: " ++ s) = false := by
    simp [S, List.isPrefixOf]
  have q2 : (S "Question:").isPrefixOf (S "Source: " ++ s) = false := by
    simp [S, List.isPrefixOf]
  have q3 : (S "Question ").isPrefixOf (S "Source: " ++ s) = false := by
    simp [S, List.isPrefixOf]
  have a1 : (S "**Answer").isPrefixOf (S "Source: " ++ s) = false := by
    simp [S, List.isPrefixOf]
  have a2 : (S "Answer:").isPrefixOf (S "Source: " ++ s) = false := by
    simp [S, List.isPrefixOf]
  have a3 : (S "Answer ").isPrefixOf (S "Source: " ++ s) = false := by
    simp [S, List.isPrefixOf]
  have c1 : (S "**Source").isPrefixOf (S "Source: " ++ s) = false := by
    simp [S, List.isPrefixOf]
  have c2 : (S "Source:").isPrefixOf (S "Source: " ++ s) = true := by
    simp [S, List.isPrefixOf]
  have hin : pyIn (S "**Source") (S "Source: " ++ s) = false := by
    rw [pyIn_eq_false_iff]
    rw [show (S "Source: " ++ s) = (S "Source: ") ++ s from rfl]
    rw [show (S "**Source") = '*' :: (S "*Source") from rfl]
    rw [infix_append_head _ (by decide)]
    exact h1
  have hni : ¬ (S "Source:") <:+: (' ' :: s) := by
    rw [show (' ' :: s) = [' '] ++ s by simp]
    rw [show (S "Source:") = 'S' :: (S "ource:") from rfl]
    rw [infix_append_head _ (by decide)]
    exact h2
  unfold scanLine
  rw [q1, q2, q3, a1, a2, a3, c1, c2]
  simp only [Bool.false_or, Bool.true_or, Bool.or_self, Bool.false_eq_true, if_false,
    if_pos rfl]
  rw [show (S "Source: " ++ s) = (S "Source:") ++ ' ' :: s from rfl]
  rw [labelText_of (by decide) (by rw [show (S "Source:") ++ ' ' :: s = S "Source: " ++ s from rfl]; exact hin) hni hs]
  rfl

/-! ## Well-formed answer sheets

A block is one `Question:`/`Answer:`/`Source:` triple of the format the
prompt mandates.  A field is well-formed when it is a non-empty,
already-trimmed single line that does not contain the separator `---`; in
its own block a field must also not contain its own label (plain or bold),
since the code's `replace`/`split("**")` label-stripping would also rewrite
such embedded occurrences. -/

/-- A well-formed field text. -/
def wfField (t : PyStr) : Prop :=
  t ≠ [] ∧ pyStrip t = t ∧ '\n' ∉ t ∧ ¬ (S "---") <:+: t

/-- A well-formed answer block. -/
def wfBlock (b : AnalysisRecord) : Prop :=
  wfField b.question ∧ wfField b.answer ∧ wfField b.source ∧
    ¬ (S "Question:") <:+: b.question ∧ ¬ (S "**Question") <:+: b.question ∧
    ¬ (S "Answer:") <:+: b.answer ∧ ¬ (S "**Answer") <:+: b.answer ∧
    ¬ (S "Source:") <:+: b.source ∧ ¬ (S "**Source") <:+: b.source

/-- The three lines of one block, without the separator. -/
def blockCore (b : AnalysisRecord) : PyStr :=
  S "Question: " ++ b.question ++ S "\nAnswer: " ++ b.answer ++
    S "\nSource: " ++ b.source

/-- One block as rendered by the mandated format: the three labelled lines
followed by a `---` separator line. -/
def renderBlock (b : AnalysisRecord) : PyStr := blockCore b ++ S "\n---"

/-- A whole well-formed answer sheet: the rendered blocks, one per
question, joined by newlines. -/
def renderSheet (blocks : List AnalysisRecord) : PyStr :=
  pyJoin (S "\n") (blocks.map renderBlock)

theorem pyJoin_cons (sep x : PyStr) (xs : List PyStr) :
    pyJoin sep (x :: xs) = x ++ (if xs = [] then [] else sep ++ pyJoin sep xs) := by
  cases xs with
  | nil => simp [pyJoin, List.intercalate, List.intersperse]
  | cons y ys => simp [pyJoin, List.intercalate, List.intersperse]

theorem getLastI_append {x y : PyStr} (hy : y ≠ []) :
    (x ++ y).getLastI = y.getLastI := by
  simp only [List.getLastI_eq_getLast?]
  rw [List.getLast?_append_of_ne_nil _ hy]

theorem blockCore_assoc (b : AnalysisRecord) :
    blockCore b = (S "Question: " ++ b.question) ++ '\n' ::
      ((S "Answer: " ++ b.answer) ++ '\n' :: (S "Source: " ++ b.source)) := by
  simp [blockCore, S]

theorem core_no_dashes {b : AnalysisRecord} (hb : wfBlock b) :
    ¬ (S "---") <:+: blockCore b := by
  obtain ⟨⟨hq1, hq2, hq3, hq4⟩, ⟨ha1, ha2, ha3, ha4⟩, ⟨hs1, hs2, hs3, hs4⟩, -⟩ := hb
  rw [blockCore_assoc]
  rw [infix_append_char (by decide)]
  rw [infix_append_char (by decide)]
  rw [show (S "---") = '-' :: (S "--") from rfl]
  rw [infix_append_head (S "Question: ") (by decide)]
  rw [infix_append_head (S "Answer: ") (by decide)]
  rw [infix_append_head (S "Source: ") (by decide)]
  rintro (h | h | h)
  · exact hq4 h
  · exact ha4 h
  · exact hs4 h

theorem core_head (b : AnalysisRecord) : (blockCore b).headI = 'Q' := by
  simp [blockCore, S]

theorem core_last {b : AnalysisRecord} (hb : wfBlock b) :
    (blockCore b).getLastI = b.source.getLastI := by
  obtain ⟨-, -, ⟨hs1, -, -, -⟩, -⟩ := hb
  rw [show blockCore b = (S "Question: " ++ b.question ++ S "\nAnswer: " ++
    b.answer ++ S "\nSource: ") ++ b.source by simp [blockCore]]
  exact getLastI_append hs1

theorem core_ne_nil (b : AnalysisRecord) : blockCore b ≠ [] := by
  simp [blockCore, S]

theorem core_newline_split {b : AnalysisRecord} (hb : wfBlock b) :
    pySplit (blockCore b) (S "\n") =
      [S "Question: " ++ b.question, S "Answer: " ++ b.answer,
       S "Source: " ++ b.source] := by
  obtain ⟨⟨hq1, hq2, hq3, hq4⟩, ⟨ha1, ha2, ha3, ha4⟩, ⟨hs1, hs2, hs3, hs4⟩, -⟩ := hb
  rw [blockCore_assoc]
  have e1 : ((S "Question: " ++ b.question) ++ '\n' ::
      ((S "Answer: " ++ b.answer) ++ '\n' :: (S "Source: " ++ b.source))) =
      (S "Question: " ++ b.question) ++ ['\n'] ++
      ((S "Answer: " ++ b.answer) ++ '\n' :: (S "Source: " ++ b.source)) := by
    simp
  have hnq : '\n' ∉ S "Question: " ++ b.question := by
    intro h
    rcases List.mem_append.mp h with h | h
    · exact absurd h (by decide)
    · exact hq3 h
  have hna : '\n' ∉ S "Answer: " ++ b.answer := by
    intro h
    rcases List.mem_append.mp h with h | h
    · exact absurd h (by decide)
    · exact ha3 h
  have hns : '\n' ∉ S "Source: " ++ b.source := by
    intro h
    rcases List.mem_append.mp h with h | h
    · exact absurd h (by decide)
    · exact hs3 h
  rw [show (S "\n") = (['\n'] : PyStr) from rfl]
  rw [e1, pySplit_append (by decide) (noEarly_char hnq)]
  have e2 : ((S "Answer: " ++ b.answer) ++ '\n' :: (S "Source: " ++ b.source)) =
      (S "Answer: " ++ b.answer) ++ ['\n'] ++ (S "Source: " ++ b.source) := by
    simp
  rw [e2, pySplit_append (by decide) (noEarly_char hna)]
  rw [pySplit_single_piece (by rw [singleton_infix_iff]; exact hns)]

theorem line_strip_id {label field : PyStr} (hl : label ≠ [])
    (hh : pyIsSpace label.headI = false) (hf1 : field ≠ [])
    (hf2 : pyStrip field = field) :
    pyStrip (label ++ field) = label ++ field := by
  apply pyStrip_of_ends
  · simp [hl]
  · rcases label with _ | ⟨c, t⟩
    · exact absurd rfl hl
    · simpa [List.headI] using hh
  · rw [getLastI_append hf1]
    exact pyStrip_trimmed_last hf2 hf1

theorem scanSection_core {b : AnalysisRecord} (hb : wfBlock b)
    {wsl wsr : PyStr} (hl : ∀ c ∈ wsl, pyIsSpace c = true)
    (hr : ∀ c ∈ wsr, pyIsSpace c = true) :
    scanSection (wsl ++ blockCore b ++ wsr) = some (some b) := by
  obtain ⟨⟨hq1, hq2, hq3, hq4⟩, ⟨ha1, ha2, ha3, ha4⟩, ⟨hs1, hs2, hs3, hs4⟩,
    hqe, hqs, hae, has, hse, hss⟩ := hb
  have hstrip : pyStrip (wsl ++ blockCore b ++ wsr) = blockCore b := by
    apply pyStrip_sandwich hl hr (core_ne_nil b)
    · rw [core_head]; decide
    · rw [core_last ⟨⟨hq1, hq2, hq3, hq4⟩, ⟨ha1, ha2, ha3, ha4⟩,
        ⟨hs1, hs2, hs3, hs4⟩, hqe, hqs, hae, has, hse, hss⟩]
      exact pyStrip_trimmed_last hs2 hs1
  have hlines : sectionLines (wsl ++ blockCore b ++ wsr) =
      [S "Question: " ++ b.question, S "Answer: " ++ b.answer,
       S "Source: " ++ b.source] := by
    unfold sectionLines
    rw [hstrip, core_newline_split ⟨⟨hq1, hq2, hq3, hq4⟩, ⟨ha1, ha2, ha3, ha4⟩,
      ⟨hs1, hs2, hs3, hs4⟩, hqe, hqs, hae, has, hse, hss⟩]
    have t1 : pyStrip (S "Question: " ++ b.question) = S "Question: " ++ b.question :=
      line_strip_id (by decide) (by decide) hq1 hq2
    have t2 : pyStrip (S "Answer: " ++ b.answer) = S "Answer: " ++ b.answer :=
      line_strip_id (by decide) (by decide) ha1 ha2
    have t3 : pyStrip (S "Source: " ++ b.source) = S "Source: " ++ b.source :=
      line_strip_id (by decide) (by decide) hs1 hs2
    have n1 : (S "Question: " ++ b.question) ≠ [] := by simp [S]
    have n2 : (S "Answer: " ++ b.answer) ≠ [] := by simp [S]
    have n3 : (S "Source: " ++ b.source) ≠ [] := by simp [S]
    simp only [List.map_cons, List.map_nil, t1, t2, t3]
    simp [List.filter, n1, n2, n3]
  unfold scanSection
  rw [hlines]
  rw [show ([S "Question: " ++ b.question, S "Answer: " ++ b.answer,
    S "Source: " ++ b.source].foldlM scanLine ⟨[], [], [], none⟩ : Option ScanState) =
    ((scanLine ⟨[], [], [], none⟩ (S "Question: " ++ b.question)).bind (fun st1 =>
      (scanLine st1 (S "Answer: " ++ b.answer)).bind (fun st2 =>
        (scanLine st2 (S "Source: " ++ b.source)).bind (fun st3 => some st3)))) from rfl]
  rw [scanLine_question _ hqs hqe hq2]
  simp only [Option.some_bind]
  rw [scanLine_answer _ has hae ha2]
  simp only [Option.some_bind]
  rw [scanLine_source _ hss hse hs2]
  simp only [Option.some_bind]
  simp only [Option.map_some']
  rw [hq2, ha2, hs2]
  simp [hq1, ha1, hs1]

theorem pre_all_space {pre : PyStr} (hpre : pre = [] ∨ pre = S "\n") :
    ∀ c ∈ pre, pyIsSpace c = true := by
  intro c hc
  rcases hpre with h | h
  · rw [h] at hc; simp at hc
  · rw [h] at hc
    have : c = '\n' := by simpa [S] using hc
    rw [this]; decide

theorem pieceA_no_dashes {b : AnalysisRecord} {pre : PyStr} (hb : wfBlock b)
    (hpre : pre = [] ∨ pre = S "\n") :
    ¬ (S "---") <:+: (pre ++ blockCore b ++ ['\n']) := by
  rw [show pre ++ blockCore b ++ ['\n'] = (pre ++ blockCore b) ++ '\n' :: [] by simp]
  rw [infix_append_char (by decide)]
  rintro (h | h)
  · rcases hpre with hp | hp
    · rw [hp] at h
      exact core_no_dashes hb (by simpa using h)
    · rw [hp] at h
      rw [show (S "\n") ++ blockCore b = ([] : PyStr) ++ '\n' :: blockCore b from rfl] at h
      rw [infix_append_char (by decide)] at h
      rcases h with h | h
      · have := h.length_le; simp [S] at this
      · exact core_no_dashes hb h
  · have := h.length_le; simp [S] at this

theorem sectionStep_piece {b : AnalysisRecord} {pre : PyStr} (hb : wfBlock b)
    (hpre : pre = [] ∨ pre = S "\n") (acc : List AnalysisRecord) :
    sectionStep acc (pre ++ blockCore b ++ ['\n']) = some (acc ++ [b]) := by
  have hstrip : pyStrip (pre ++ blockCore b ++ ['\n']) = blockCore b := by
    apply pyStrip_sandwich (pre_all_space hpre)
      (by intro c hc; have h2 : c = '\n' := (by simpa using hc); subst h2; decide)
      (core_ne_nil b)
    · rw [core_head]; decide
    · rw [core_last hb]
      exact pyStrip_trimmed_last hb.2.2.1.2.1 hb.2.2.1.1
  unfold sectionStep
  rw [hstrip]
  rw [if_neg (core_ne_nil b)]
  rw [scanSection_core hb (pre_all_space hpre)
    (by intro c hc; have h2 : c = '\n' := (by simpa using hc); subst h2; decide)]
  rfl

theorem sheet_loop (blocks : List AnalysisRecord) :
    ∀ (hwf : ∀ b ∈ blocks, wfBlock b) (pre : PyStr)
      (hpre : pre = [] ∨ pre = S "\n") (acc : List AnalysisRecord),
      blocks ≠ [] →
      (pySplit (pre ++ renderSheet blocks) (S "---")).foldlM sectionStep acc =
        some (acc ++ blocks) := by
  induction blocks with
  | nil => intro _ _ _ _ hne; exact absurd rfl hne
  | cons b bs ih =>
    intro hwf pre hpre acc _
    have hb : wfBlock b := hwf b (List.mem_cons_self b bs)
    have hA1 : (pre ++ blockCore b ++ ['\n']) ≠ [] := by simp
    have hA2 : (pre ++ blockCore b ++ ['\n']).getLastI = '\n' := by
      rw [show pre ++ blockCore b ++ ['\n'] = (pre ++ blockCore b) ++ ['\n'] by simp]
      rw [getLastI_append (by simp)]
      simp [List.getLastI_eq_getLast?]
    have hnoA := pieceA_no_dashes hb hpre
    cases bs with
    | nil =>
      have e : pre ++ renderSheet [b] =
          (pre ++ blockCore b ++ ['\n']) ++ S "---" ++ [] := by
        show pre ++ pyJoin (S "\n") [renderBlock b] = _
        have hj : pyJoin (S "\n") [renderBlock b] = renderBlock b := by
          simp [pyJoin, List.intercalate]
        rw [hj]
        show pre ++ (blockCore b ++ ('\n' :: S "---")) = _
        simp
      rw [e, pySplit_append (by decide) (noEarly_dashes hA1 hA2 hnoA)]
      rw [show pySplit [] (S "---") = [[]] from rfl]
      rw [List.foldlM_cons, sectionStep_piece hb hpre acc]
      rfl
    | cons b' bs' =>
      have e : pre ++ renderSheet (b :: b' :: bs') =
          (pre ++ blockCore b ++ ['\n']) ++ S "---" ++
            (S "\n" ++ renderSheet (b' :: bs')) := by
        show pre ++ pyJoin (S "\n") (renderBlock b :: (b' :: bs').map renderBlock) = _
        rw [pyJoin_cons, if_neg (by simp)]
        show pre ++ (blockCore b ++ ('\n' :: S "---") ++
          (S "\n" ++ pyJoin (S "\n") ((b' :: bs').map renderBlock))) = _
        show _ = pre ++ blockCore b ++ ['\n'] ++ S "---" ++
          (S "\n" ++ pyJoin (S "\n") ((b' :: bs').map renderBlock))
        simp
      rw [e, pySplit_append (by decide) (noEarly_dashes hA1 hA2 hnoA)]
      rw [List.foldlM_cons, sectionStep_piece hb hpre acc]
      show (pySplit (S "\n" ++ renderSheet (b' :: bs')) (S "---")).foldlM
        sectionStep (acc ++ [b]) = _
      rw [ih (fun x hx => hwf x (List.mem_cons_of_mem b hx)) (S "\n")
        (Or.inr rfl) (acc ++ [b]) (by simp)]
      simp

theorem headI_append {x y : PyStr} (hx : x ≠ []) : (x ++ y).headI = x.headI := by
  cases x with
  | nil => exact absurd rfl hx
  | cons c t => rfl

theorem renderSheet_ne_nil (b : AnalysisRecord) (bs : List AnalysisRecord) :
    renderSheet (b :: bs) ≠ [] := by
  unfold renderSheet
  rw [List.map_cons, pyJoin_cons]
  intro h
  rcases List.append_eq_nil.mp h with ⟨h1, -⟩
  rcases List.append_eq_nil.mp h1 with ⟨-, h2⟩
  simp [S] at h2

theorem renderSheet_head (b : AnalysisRecord) (bs : List AnalysisRecord) :
    (renderSheet (b :: bs)).headI = 'Q' := by
  unfold renderSheet
  rw [List.map_cons, pyJoin_cons]
  rw [show renderBlock b ++ (if (bs.map renderBlock) = [] then []
    else S "\n" ++ pyJoin (S "\n") (bs.map renderBlock)) =
    (blockCore b) ++ (S "\n---" ++ (if (bs.map renderBlock) = [] then []
    else S "\n" ++ pyJoin (S "\n") (bs.map renderBlock))) by simp [renderBlock]]
  rw [headI_append (core_ne_nil b), core_head]

theorem renderSheet_last (blocks : List AnalysisRecord) (hne : blocks ≠ []) :
    (renderSheet blocks).getLastI = '-' := by
  induction blocks with
  | nil => exact absurd rfl hne
  | cons b bs ih =>
    unfold renderSheet
    rw [List.map_cons, pyJoin_cons]
    cases bs with
    | nil =>
      simp only [List.map_nil, if_true, List.append_nil]
      unfold renderBlock
      rw [getLastI_append (by decide)]
      decide
    | cons b' bs' =>
      rw [if_neg (by simp)]
      rw [getLastI_append (by simp [S])]
      rw [show (S "\n" ++ pyJoin (S "\n") ((b' :: bs').map renderBlock)) =
        S "\n" ++ renderSheet (b' :: bs') from rfl]
      rw [getLastI_append (renderSheet_ne_nil b' bs')]
      exact ih (by simp)

theorem renderSheet_has_dashes (b : AnalysisRecord) (bs : List AnalysisRecord) :
    pyIn (S "---") (renderSheet (b :: bs)) = true := by
  rw [pyIn_iff]
  have h1 : (S "---") <:+: renderBlock b := by
    refine ⟨blockCore b ++ ['\n'], [], ?_⟩
    rw [renderBlock, show (S "\n---") = '\n' :: S "---" from rfl]
    simp
  unfold renderSheet
  rw [List.map_cons, pyJoin_cons]
  exact h1.trans (List.prefix_append _ _).isInfix

/-- C2.  Tier 1 on a well-formed answer sheet, exactly in the mandated
format, recovers exactly one record per question block, with the literal
(trimmed) field texts; e.g. the sheet rendered from the single block
`{Is it Halal? / Yes, certified by XYZ. / Page 2}` — which is literally
`"Question: Is it Halal?\nAnswer: Yes, certified by XYZ.\nSource: Page 2\n---"`
— parses to exactly that one record. -/
theorem C2_tier1_wellformed_sheet (blocks : List AnalysisRecord)
    (hne : blocks ≠ []) (hwf : ∀ b ∈ blocks, wfBlock b) :
    parseAnalysisResults (renderSheet blocks) = some blocks := by
  obtain ⟨b, bs, rfl⟩ : ∃ b bs, blocks = b :: bs := by
    cases blocks with
    | nil => exact absurd rfl hne
    | cons b bs => exact ⟨b, bs, rfl⟩
  unfold parseAnalysisResults parserSections
  have hstr : pyStrip (renderSheet (b :: bs)) = renderSheet (b :: bs) := by
    apply pyStrip_of_ends (renderSheet_ne_nil b bs)
    · rw [renderSheet_head]; decide
    · rw [renderSheet_last _ (by simp)]; decide
  rw [hstr, if_pos (renderSheet_has_dashes b bs)]
  have hloop := sheet_loop (b :: bs) hwf [] (Or.inl rfl) [] (by simp)
  simp only [List.nil_append] at hloop
  unfold sectionLoop
  rw [hloop]
  simp

/-- Witness for C2: the spec's own scenario, the single Halal block. -/
theorem C2_witness :
    ([(⟨S "Is it Halal?", S "Yes, certified by XYZ.", S "Page 2"⟩ : AnalysisRecord)] ≠ []) ∧
    (∀ b ∈ [(⟨S "Is it Halal?", S "Yes, certified by XYZ.", S "Page 2"⟩ : AnalysisRecord)], wfBlock b) ∧
    renderSheet [⟨S "Is it Halal?", S "Yes, certified by XYZ.", S "Page 2"⟩] =
      S "Question: Is it Halal?\nAnswer: Yes, certified by XYZ.\nSource: Page 2\n---" ∧
    parseAnalysisResults
      (S "Question: Is it Halal?\nAnswer: Yes, certified by XYZ.\nSource: Page 2\n---") =
      some [⟨S "Is it Halal?", S "Yes, certified by XYZ.", S "Page 2"⟩] := by
  refine ⟨by simp, ?_, rfl, ?_⟩
  · intro bb hb
    have : bb = ⟨S "Is it Halal?", S "Yes, certified by XYZ.", S "Page 2"⟩ := by
      simpa using hb
    rw [this]
    unfold wfBlock wfField
    refine ⟨⟨by decide, by decide, by decide, ?_⟩, ⟨by decide, by decide, by decide, ?_⟩,
      ⟨by decide, by decide, by decide, ?_⟩, ?_, ?_, ?_, ?_, ?_, ?_⟩ <;>
      · rw [← pyIn_iff]; decide
  · have h := C2_tier1_wellformed_sheet
      [⟨S "Is it Halal?", S "Yes, certified by XYZ.", S "Page 2"⟩] (by simp)
      (by intro bb hb
          have : bb = ⟨S "Is it Halal?", S "Yes, certified by XYZ.", S "Page 2"⟩ := by
            simpa using hb
          rw [this]
          unfold wfBlock wfField
          refine ⟨⟨by decide, by decide, by decide, ?_⟩, ⟨by decide, by decide, by decide, ?_⟩,
            ⟨by decide, by decide, by decide, ?_⟩, ?_, ?_, ?_, ?_, ?_, ?_⟩ <;>
            · rw [← pyIn_iff]; decide)
    simpa using h

theorem scanLine_cont (st : ScanState) {line : PyStr}
    (h1 : (S "**Question").isPrefixOf line = false)
    (h2 : (S "Question:").isPrefixOf line = false)
    (h3 : (S "Question ").isPrefixOf line = false)
    (h4 : (S "**Answer").isPrefixOf line = false)
    (h5 : (S "Answer:").isPrefixOf line = false)
    (h6 : (S "Answer ").isPrefixOf line = false)
    (h7 : (S "**Source").isPrefixOf line = false)
    (h8 : (S "Source:").isPrefixOf line = false)
    (h9 : (S "Source ").isPrefixOf line = false) :
    scanLine st line = some (contLine st line) := by
  unfold scanLine
  rw [h1, h2, h3, h4, h5, h6, h7, h8, h9]
  simp

theorem pySplit_newline_cons {x rest : PyStr} (hx : '\n' ∉ x) :
    pySplit (x ++ '\n' :: rest) (['\n']) = x :: pySplit rest (['\n']) := by
  rw [show x ++ '\n' :: rest = x ++ ['\n'] ++ rest by simp]
  exact pySplit_append (by decide) (noEarly_char hx)

theorem sectionLines_four {l1 cont a s : PyStr}
    (h1n : '\n' ∉ l1) (hcn : '\n' ∉ cont)
    (hl1 : pyStrip l1 = l1) (hl1ne : l1 ≠ [])
    (hc : pyStrip cont = cont) (hcne : cont ≠ [])
    (ha1 : a ≠ []) (ha2 : pyStrip a = a) (han : '\n' ∉ a)
    (hs1 : s ≠ []) (hs2 : pyStrip s = s) (hsn : '\n' ∉ s) :
    sectionLines (l1 ++ '\n' :: (cont ++ '\n' ::
        ((S "Answer: " ++ a) ++ '\n' :: (S "Source: " ++ s)))) =
      [l1, cont, S "Answer: " ++ a, S "Source: " ++ s] := by
  have hna : '\n' ∉ S "Answer: " ++ a := by
    intro h
    rcases List.mem_append.mp h with h | h
    · exact absurd h (by decide)
    · exact han h
  have hns : '\n' ∉ S "Source: " ++ s := by
    intro h
    rcases List.mem_append.mp h with h | h
    · exact absurd h (by decide)
    · exact hsn h
  have hstrip : pyStrip (l1 ++ '\n' :: (cont ++ '\n' ::
      ((S "Answer: " ++ a) ++ '\n' :: (S "Source: " ++ s)))) =
      l1 ++ '\n' :: (cont ++ '\n' ::
      ((S "Answer: " ++ a) ++ '\n' :: (S "Source: " ++ s))) := by
    apply pyStrip_of_ends
    · rcases l1 with _ | ⟨c, t⟩
      · exact absurd rfl hl1ne
      · simp
    · rw [headI_append hl1ne]
      exact pyStrip_trimmed_head hl1 hl1ne
    · rw [show l1 ++ '\n' :: (cont ++ '\n' ::
        ((S "Answer: " ++ a) ++ '\n' :: (S "Source: " ++ s))) =
        (l1 ++ '\n' :: (cont ++ '\n' ::
        ((S "Answer: " ++ a) ++ '\n' :: S "Source: "))) ++ s by simp]
      rw [getLastI_append hs1]
      exact pyStrip_trimmed_last hs2 hs1
  unfold sectionLines
  rw [hstrip]
  rw [show (S "\n") = (['\n'] : PyStr) from rfl]
  rw [pySplit_newline_cons h1n, pySplit_newline_cons hcn, pySplit_newline_cons hna]
  rw [pySplit_single_piece (by rw [singleton_infix_iff]; exact hns)]
  have t2 : pyStrip (S "Answer: " ++ a) = S "Answer: " ++ a :=
    line_strip_id (by decide) (by decide) ha1 ha2
  have t3 : pyStrip (S "Source: " ++ s) = S "Source: " ++ s :=
    line_strip_id (by decide) (by decide) hs1 hs2
  have n2 : (S "Answer: " ++ a) ≠ [] := by simp [S]
  have n3 : (S "Source: " ++ s) ≠ [] := by simp [S]
  simp only [List.map_cons, List.map_nil, hl1, hc, t2, t3]
  simp [List.filter, hl1ne, hcne, n2, n3]

/-- C6 (amended).  In the Tier-1 section scanner, an unlabeled line is
appended (space-joined) to the most recently opened field only when that
field's accumulated text is non-empty.  When the opening label line carried
text (`Question: q`), the continuation is appended (first conjunct); when
the label line carried no text after its label (`Question:`), the unlabeled
line is discarded, the question stays empty, and the section yields no
record (second conjunct). -/
theorem C6_continuation_only_into_nonempty_field (q a s cont : PyStr)
    (hb : wfBlock ⟨q, a, s⟩) (hcf : wfField cont)
    (h1 : (S "**Question").isPrefixOf cont = false)
    (h2 : (S "Question:").isPrefixOf cont = false)
    (h3 : (S "Question ").isPrefixOf cont = false)
    (h4 : (S "**Answer").isPrefixOf cont = false)
    (h5 : (S "Answer:").isPrefixOf cont = false)
    (h6 : (S "Answer ").isPrefixOf cont = false)
    (h7 : (S "**Source").isPrefixOf cont = false)
    (h8 : (S "Source:").isPrefixOf cont = false)
    (h9 : (S "Source ").isPrefixOf cont = false) :
    scanSection ((S "Question: " ++ q) ++ '\n' :: (cont ++ '\n' ::
        ((S "Answer: " ++ a) ++ '\n' :: (S "Source: " ++ s)))) =
      some (some ⟨q ++ S " " ++ cont, a, s⟩) ∧
    scanSection ((S "Question:") ++ '\n' :: (cont ++ '\n' ::
        ((S "Answer: " ++ a) ++ '\n' :: (S "Source: " ++ s)))) =
      some none := by
  obtain ⟨⟨hq1, hq2, hq3, hq4⟩, ⟨ha1, ha2, ha3, ha4⟩, ⟨hs1, hs2, hs3, hs4⟩,
    hqe, hqs, hae, has, hse, hss⟩ := hb
  obtain ⟨hc1, hc2, hc3, hc4⟩ := hcf
  have hqline : '\n' ∉ S "Question: " ++ q := by
    intro h
    rcases List.mem_append.mp h with h | h
    · exact absurd h (by decide)
    · exact hq3 h
  constructor
  · unfold scanSection
    rw [sectionLines_four hqline hc3 (line_strip_id (by decide) (by decide) hq1 hq2)
      (by simp [S]) hc2 hc1 ha1 ha2 ha3 hs1 hs2 hs3]
    rw [show ([S "Question: " ++ q, cont, S "Answer: " ++ a,
      S "Source: " ++ s].foldlM scanLine ⟨[], [], [], none⟩ : Option ScanState) =
      ((scanLine ⟨[], [], [], none⟩ (S "Question: " ++ q)).bind (fun st1 =>
        (scanLine st1 cont).bind (fun st2 =>
          (scanLine st2 (S "Answer: " ++ a)).bind (fun st3 =>
            (scanLine st3 (S "Source: " ++ s)).bind (fun st4 => some st4))))) from rfl]
    rw [scanLine_question _ hqs hqe hq2]
    simp only [Option.some_bind]
    rw [scanLine_cont _ h1 h2 h3 h4 h5 h6 h7 h8 h9]
    simp only [Option.some_bind]
    rw [show contLine ⟨q, [], [], some FieldTag.questionF⟩ cont =
      (⟨q ++ S " " ++ cont, [], [], some FieldTag.questionF⟩ : ScanState) by
        unfold contLine; simp [hq1]]
    rw [scanLine_answer _ has hae ha2]
    simp only [Option.some_bind]
    rw [scanLine_source _ hss hse hs2]
    simp only [Option.some_bind, Option.map_some']
    have hqc1 : (q ++ S " " ++ cont) ≠ [] := by simp [S]
    have hqc2 : pyStrip (q ++ S " " ++ cont) = q ++ S " " ++ cont := by
      apply pyStrip_of_ends hqc1
      · rw [show q ++ S " " ++ cont = q ++ (S " " ++ cont) by simp]
        rw [headI_append hq1]
        exact pyStrip_trimmed_head hq2 hq1
      · rw [getLastI_append hc1]
        exact pyStrip_trimmed_last hc2 hc1
    rw [hqc2, ha2, hs2]
    simp [hqc1, ha1, hs1]
    intro _ hsp
    exact absurd hsp (by decide)
  · unfold scanSection
    rw [sectionLines_four (by decide) hc3 (by decide)
      (by decide) hc2 hc1 ha1 ha2 ha3 hs1 hs2 hs3]
    rw [show ([S "Question:", cont, S "Answer: " ++ a,
      S "Source: " ++ s].foldlM scanLine ⟨[], [], [], none⟩ : Option ScanState) =
      ((scanLine ⟨[], [], [], none⟩ (S "Question:")).bind (fun st1 =>
        (scanLine st1 cont).bind (fun st2 =>
          (scanLine st2 (S "Answer: " ++ a)).bind (fun st3 =>
            (scanLine st3 (S "Source: " ++ s)).bind (fun st4 => some st4))))) from rfl]
    rw [show scanLine ⟨[], [], [], none⟩ (S "Question:") =
      some ⟨[], [], [], some FieldTag.questionF⟩ by decide]
    simp only [Option.some_bind]
    rw [scanLine_cont _ h1 h2 h3 h4 h5 h6 h7 h8 h9]
    simp only [Option.some_bind]
    rw [show contLine ⟨[], [], [], some FieldTag.questionF⟩ cont =
      (⟨[], [], [], some FieldTag.questionF⟩ : ScanState) by unfold contLine; simp]
    rw [scanLine_answer _ has hae ha2]
    simp only [Option.some_bind]
    rw [scanLine_source _ hss hse hs2]
    simp only [Option.some_bind, Option.map_some']
    simp [pyStrip_nil]

/-- Counterexample to C6 as stated: in the sheet below the label line
`Question:` carries no text, so the unlabeled continuation
`Is it vegan?` is dropped (not appended to the open question field) and
the first block yields no record at all; only the second block's record is
returned.  Under the claim, the first block would have parsed to a record
with question `Is it vegan?`. -/
theorem C6_counterexample :
    parseAnalysisResults
      (S "Question:\nIs it vegan?\nAnswer: Yes\nSource: Page 1\n---\nQuestion: Q2\nAnswer: A2\nSource: S2\n---") =
      some [⟨S "Q2", S "A2", S "S2"⟩] := by
  decide

/-- Witness for C6 (amended): concrete instantiation with
`q = "Is it GMO?"`, continuation `"for this batch"`. -/
theorem C6_witness :
    scanSection ((S "Question: " ++ S "Is it GMO?") ++ '\n' :: (S "for this batch" ++ '\n' ::
        ((S "Answer: " ++ S "No") ++ '\n' :: (S "Source: " ++ S "p1")))) =
      some (some ⟨S "Is it GMO?" ++ S " " ++ S "for this batch", S "No", S "p1"⟩) ∧
    scanSection ((S "Question:") ++ '\n' :: (S "for this batch" ++ '\n' ::
        ((S "Answer: " ++ S "No") ++ '\n' :: (S "Source: " ++ S "p1")))) =
      some none :=
  C6_continuation_only_into_nonempty_field (S "Is it GMO?") (S "No") (S "p1")
    (S "for this batch")
    (by refine ⟨⟨by decide, by decide, by decide, ?_⟩, ⟨by decide, by decide, by decide, ?_⟩,
          ⟨by decide, by decide, by decide, ?_⟩, ?_, ?_, ?_, ?_, ?_, ?_⟩ <;>
        · rw [← pyIn_iff]; decide)
    (by refine ⟨by decide, by decide, by decide, ?_⟩
        rw [← pyIn_iff]; decide)
    (by decide) (by decide) (by decide) (by decide) (by decide) (by decide)
    (by decide) (by decide) (by decide)

/-! ## Totality of the parser -/

theorem splitNGo_ne_nil (sep : PyStr) :
    ∀ (s : PyStr) (n k : Nat) (acc : PyStr), splitNGo sep s n k acc ≠ [] := by
  intro s
  induction s with
  | nil => intro n k acc; simp [splitNGo]
  | cons c t ih =>
    intro n k acc
    cases k with
    | succ k' => simpa [splitNGo] using ih n k' acc
    | zero =>
      cases n with
      | zero => simp [splitNGo]
      | succ n' =>
        simp only [splitNGo]
        split
        · simp
        · exact ih (n' + 1) 0 (c :: acc)

theorem labelText_isSome (star plain line : PyStr) :
    (labelText star plain line).isSome = true := by
  unfold labelText
  split
  · split
    · rw [Option.isSome_map']
      rw [List.getLast?_isSome]
      exact splitNGo_ne_nil (S "**") line 2 0 []
    · rfl
  · rfl

theorem scanLine_isSome (st : ScanState) (line : PyStr) :
    (scanLine st line).isSome = true := by
  unfold scanLine
  split
  · rw [Option.isSome_map']
    exact labelText_isSome _ _ _
  · split
    · rw [Option.isSome_map']
      exact labelText_isSome _ _ _
    · split
      · rw [Option.isSome_map']
        exact labelText_isSome _ _ _
      · rfl

theorem foldlM_option_isSome {α β : Type} (f : β → α → Option β)
    (h : ∀ st x, (f st x).isSome = true) :
    ∀ (l : List α) (init : β), (l.foldlM f init).isSome = true := by
  intro l
  induction l with
  | nil => intro init; rfl
  | cons x xs ih =>
    intro init
    rw [List.foldlM_cons]
    obtain ⟨y, hy⟩ := Option.isSome_iff_exists.mp (h init x)
    rw [hy]
    simpa using ih y

theorem scanSection_isSome (sec : PyStr) : (scanSection sec).isSome = true := by
  unfold scanSection
  rw [Option.isSome_map']
  exact foldlM_option_isSome scanLine scanLine_isSome _ _

theorem sectionStep_isSome (acc : List AnalysisRecord) (sec : PyStr) :
    (sectionStep acc sec).isSome = true := by
  unfold sectionStep
  split
  · rfl
  · rw [Option.isSome_map']
    exact scanSection_isSome sec

theorem sectionLoop_isSome (secs : List PyStr) :
    (sectionLoop secs).isSome = true :=
  foldlM_option_isSome sectionStep sectionStep_isSome secs []

/-- C3.  The parser is total — it returns a value (`some`) on every input
string, including empty, malformed and adversarial text — and when the
Tier-1/Tier-2 section loop recovers no record and Tier 3's aggressive
regex recovers none either, it returns the empty record list. -/
theorem C3_parser_never_raises (t : PyStr) :
    (parseAnalysisResults t).isSome = true ∧
      (sectionLoop (parserSections (pyStrip t)) = some [] →
        tier3Records (pyStrip t) = [] → parseAnalysisResults t = some []) := by
  constructor
  · unfold parseAnalysisResults
    rw [Option.isSome_map']
    exact sectionLoop_isSome _
  · intro h1 h2
    unfold parseAnalysisResults
    rw [h1]
    simp [h2]

/-! ## Question Matcher theorems -/

/-- C4.  The matcher produces exactly one output entry per canonical
question, in canonical input order (so questions are never reordered,
dropped, or deduplicated), for every record sequence including the empty
one; an entry with no matching record renders as the explicit
"no specific analysis found" / "not processed" placeholders rather than
being omitted. -/
theorem C4_matcher_totality (questions : List PyStr) (results : List AnalysisRecord) :
    (resolveAll questions results).map Prod.fst = questions ∧
    (resolveAll questions results).length = questions.length ∧
    renderEntry none = (S "No specific analysis found for this question",
      S "Question not processed in current analysis") := by
  refine ⟨?_, ?_, rfl⟩
  · unfold resolveAll
    rw [List.map_map]
    rw [show (Prod.fst ∘ fun p : Nat × PyStr =>
      (p.2, resolveOne results (buildResultMap results) p.1 p.2)) = Prod.snd from rfl]
    exact List.enum_map_snd questions
  · unfold resolveAll
    simp

/-- C7.  The spec's substring-fallback scenario: canonical question
`"Is the Ingredient Vegan? (Yes/No/Unknown)"` against a record sequence
whose second record has question text `"vegan"` (no exact match present,
and the record at the canonical question's own index is a different
record): the exact tier misses, the substring tier returns the `"vegan"`
record, and the matcher resolves to it — via the substring tier, not the
positional tier (which would have returned the `"packaging"` record). -/
theorem C7_substring_tier_scenario :
    matchExact (buildResultMap [⟨S "packaging", S "Cardboard box", S "p9"⟩,
        ⟨S "vegan", S "Yes", S "Page 1"⟩])
      (S "Is the Ingredient Vegan? (Yes/No/Unknown)") = none ∧
    matchSub (buildResultMap [⟨S "packaging", S "Cardboard box", S "p9"⟩,
        ⟨S "vegan", S "Yes", S "Page 1"⟩])
      (S "Is the Ingredient Vegan? (Yes/No/Unknown)") =
      some ⟨S "vegan", S "Yes", S "Page 1"⟩ ∧
    resolveAll [S "Is the Ingredient Vegan? (Yes/No/Unknown)"]
      [⟨S "packaging", S "Cardboard box", S "p9"⟩, ⟨S "vegan", S "Yes", S "Page 1"⟩] =
      [(S "Is the Ingredient Vegan? (Yes/No/Unknown)",
        some ⟨S "vegan", S "Yes", S "Page 1"⟩)] := by
  refine ⟨by decide, by decide, by decide⟩

/-- The keys of an association list. -/
def keysOf (m : List (PyStr × AnalysisRecord)) : List PyStr := m.map Prod.fst

theorem keysOf_dictInsert (m : List (PyStr × AnalysisRecord)) (k : PyStr)
    (v : AnalysisRecord) :
    keysOf (dictInsert m k v) = if k ∈ keysOf m then keysOf m else keysOf m ++ [k] := by
  induction m with
  | nil => simp [dictInsert, keysOf]
  | cons p rest ih =>
    obtain ⟨k0, v0⟩ := p
    by_cases h : k0 = k
    · subst h
      simp [dictInsert, keysOf]
    · simp only [dictInsert, if_neg h, keysOf, List.map_cons]
      simp only [keysOf] at ih
      rw [ih]
      by_cases hm : k ∈ List.map Prod.fst rest
      · simp [hm, h, List.mem_cons, Ne.symm h]
      · have : k ∈ (k0 :: List.map Prod.fst rest) ↔ k ∈ List.map Prod.fst rest := by
          simp [List.mem_cons, Ne.symm h]
        simp [hm, this]

theorem keysOf_nodup_dictInsert {m : List (PyStr × AnalysisRecord)}
    (h : (keysOf m).Nodup) (k : PyStr) (v : AnalysisRecord) :
    (keysOf (dictInsert m k v)).Nodup := by
  rw [keysOf_dictInsert]
  split
  · exact h
  · rw [List.nodup_append]
    refine ⟨h, List.nodup_singleton k, ?_⟩
    intro a ha hb
    simp at hb
    subst hb
    exact absurd ha (by assumption)

theorem buildResultMap_keys_nodup (rs : List AnalysisRecord) :
    (keysOf (buildResultMap rs)).Nodup := by
  unfold buildResultMap
  suffices h : ∀ (m : List (PyStr × AnalysisRecord)), (keysOf m).Nodup →
      (keysOf (rs.foldl (fun m r => dictInsert m (recKey r) r) m)).Nodup by
    exact h [] (by simp [keysOf])
  induction rs with
  | nil => intro m hm; exact hm
  | cons r rs' ih =>
    intro m hm
    exact ih _ (keysOf_nodup_dictInsert hm (recKey r) r)

theorem dictFind_dictInsert (m : List (PyStr × AnalysisRecord)) (k' k : PyStr)
    (v' : AnalysisRecord) :
    dictFind (dictInsert m k' v') k = if k' = k then some v' else dictFind m k := by
  induction m with
  | nil => simp [dictInsert, dictFind]
  | cons p rest ih =>
    obtain ⟨k0, v0⟩ := p
    by_cases h : k0 = k'
    · subst h
      by_cases h2 : k0 = k
      · simp [dictInsert, dictFind, h2]
      · simp [dictInsert, dictFind, h2]
    · by_cases h2 : k0 = k
      · have hne : ¬ k' = k := fun he => h (h2.trans he.symm)
        have hne2 : ¬ k = k' := fun he => hne he.symm
        simp [dictInsert, dictFind, h, h2, hne, hne2]
      · simp [dictInsert, dictFind, h, h2, ih]

theorem dictFind_buildResultMap (rs : List AnalysisRecord) (k : PyStr) :
    dictFind (buildResultMap rs) k =
      (rs.filter (fun x => recKey x = k)).getLast? := by
  induction rs using List.reverseRecOn with
  | nil => simp [buildResultMap, dictFind]
  | append_singleton rs' x ih =>
    unfold buildResultMap at ih ⊢
    rw [List.foldl_append]
    simp only [List.foldl_cons, List.foldl_nil]
    rw [dictFind_dictInsert]
    rw [List.filter_append]
    by_cases h : recKey x = k
    · rw [if_pos h]
      simp [h]
    · rw [if_neg h]
      simp only [List.filter_cons, List.filter_nil]
      rw [if_neg (by simpa using h)]
      simp [ih]

theorem dictFind_of_mem {m : List (PyStr × AnalysisRecord)}
    (hnd : (keysOf m).Nodup) {k : PyStr} {v : AnalysisRecord}
    (hm : (k, v) ∈ m) : dictFind m k = some v := by
  induction m with
  | nil => simp at hm
  | cons p rest ih =>
    obtain ⟨k0, v0⟩ := p
    have hnd' : (keysOf rest).Nodup ∧ k0 ∉ keysOf rest := by
      have := hnd
      simp only [keysOf, List.map_cons, List.nodup_cons] at this
      exact ⟨this.2, this.1⟩
    rcases List.mem_cons.mp hm with h | h
    · have hk : k0 = k := (congrArg Prod.fst h).symm
      have hv : v0 = v := (congrArg Prod.snd h).symm
      simp only [dictFind, if_pos hk, hv]
    · have hk : k ∈ keysOf rest := by
        simp only [keysOf, List.mem_map]
        exact ⟨(k, v), h, rfl⟩
      have hne : k0 ≠ k := fun he => hnd'.2 (he ▸ hk)
      simp only [dictFind, if_neg hne]
      exact ih hnd'.1 h

theorem matchSub_mem {m : List (PyStr × AnalysisRecord)} {q : PyStr}
    {r : AnalysisRecord} (h : matchSub m q = some r) : ∃ k, (k, r) ∈ m := by
  induction m with
  | nil => simp [matchSub] at h
  | cons p rest ih =>
    obtain ⟨k0, v0⟩ := p
    simp only [matchSub] at h
    split at h
    · have h2 : v0 = r := by injection h
      exact ⟨k0, h2 ▸ List.mem_cons_self _ _⟩
    · obtain ⟨k, hk⟩ := ih h
      exact ⟨k, List.mem_cons_of_mem _ hk⟩

/-- C10.  When records share a question key (trimmed, case-folded question
text), the exact-match and substring-match tiers can only return the record
appearing *last* in the record sequence with that key: later records
overwrite earlier ones in `result_map`, so the earlier duplicates are
unreachable by those two tiers (they can surface only via the positional
fallback). -/
theorem C10_duplicate_keys_last_record_wins (rs : List AnalysisRecord)
    (q : PyStr) (r : AnalysisRecord)
    (h : matchExact (buildResultMap rs) q = some r ∨
      matchSub (buildResultMap rs) q = some r) :
    (rs.filter (fun x => recKey x = recKey r)).getLast? = some r := by
  have main : ∀ k, dictFind (buildResultMap rs) k = some r →
      (rs.filter (fun x => recKey x = recKey r)).getLast? = some r := by
    intro k hk
    rw [dictFind_buildResultMap] at hk
    have hmem : r ∈ rs.filter (fun x => recKey x = k) := List.mem_of_mem_getLast? hk
    have hkey : recKey r = k := by
      have := List.of_mem_filter hmem
      simpa using this
    rw [hkey]
    exact hk
  rcases h with h | h
  · exact main _ h
  · obtain ⟨k, hmem⟩ := matchSub_mem h
    exact main k (dictFind_of_mem (buildResultMap_keys_nodup rs) hmem)

/-- Witness for C10: two records whose questions case-fold to the same key
`"q1"`; the exact tier returns the second (later) record, which is indeed
the last record with that key. -/
theorem C10_witness :
    (matchExact (buildResultMap [⟨S "q1", S "first", S "a"⟩, ⟨S "Q1", S "second", S "b"⟩])
        (S "q1") = some ⟨S "Q1", S "second", S "b"⟩ ∨
      matchSub (buildResultMap [⟨S "q1", S "first", S "a"⟩, ⟨S "Q1", S "second", S "b"⟩])
        (S "q1") = some ⟨S "Q1", S "second", S "b"⟩) ∧
    ([(⟨S "q1", S "first", S "a"⟩ : AnalysisRecord), ⟨S "Q1", S "second", S "b"⟩].filter
      (fun x => recKey x = recKey ⟨S "Q1", S "second", S "b"⟩)).getLast? =
      some ⟨S "Q1", S "second", S "b"⟩ :=
  ⟨Or.inl (by decide),
    C10_duplicate_keys_last_record_wins
      [⟨S "q1", S "first", S "a"⟩, ⟨S "Q1", S "second", S "b"⟩] (S "q1")
      ⟨S "Q1", S "second", S "b"⟩ (Or.inl (by decide))⟩

/-! ## Category Prioritizer vs Content Budgeter scoring (C9) -/

theorem sublist_map_sum_le {α : Type} (f : α → Nat) {l₁ l₂ : List α}
    (h : l₁.Sublist l₂) : (l₁.map f).sum ≤ (l₂.map f).sum :=
  List.Sublist.sum_le_sum (h.map f) (fun a _ => Nat.zero_le a)

/-- Counterexample to C9 as stated: for the category `nutrient` and the
corpus text `"potassium"`, the Category Prioritizer scores 0 (its
abbreviated keyword list has no `potassium`) while the Content Budgeter's
keyword scorer counts 1 over the same text. -/
theorem C9_counterexample :
    prioritizeScore (S "potassium") (S "nutrient") = 0 ∧
    keywordHits (extractKeywords (S "nutrient")) (S "potassium") = 1 := by
  refine ⟨by decide, by decide⟩

/-- C9 (amended).  Both components count case-insensitive substring
occurrences with the same counting function (`keywordHits`), but the
Category Prioritizer's per-category keyword list is a (strictly shorter,
for the real categories) sublist of the Content Budgeter's, so for every
category string and every corpus text the prioritizer's score is at most —
not equal to — the Budgeter's keyword score for that category over the
same text. -/
theorem C9_prioritizer_score_le_budgeter (category text : PyStr) :
    (prioritizeKeywords category).Sublist (extractKeywords category) ∧
    prioritizeScore text category ≤ keywordHits (extractKeywords category) text := by
  have hsub : (prioritizeKeywords category).Sublist (extractKeywords category) := by
    unfold prioritizeKeywords extractKeywords
    split_ifs <;> first | decide | exact List.nil_sublist _
  refine ⟨hsub, ?_⟩
  unfold prioritizeScore keywordHits
  exact sublist_map_sum_le _ hsub

/-! ## Content Budgeter theorems (C1, C5) -/

theorem insertScored_perm (x : Scored) (l : List Scored) :
    (insertScoredDesc x l).Perm (x :: l) := by
  induction l with
  | nil => exact List.Perm.refl _
  | cons y ys ih =>
    unfold insertScoredDesc
    split
    · exact ((ih.cons y).trans (List.Perm.swap x y ys))
    · exact List.Perm.refl _

theorem sortScored_perm (l : List Scored) : (sortScoredDesc l).Perm l := by
  unfold sortScoredDesc
  suffices h : ∀ acc, (l.foldl (fun acc x => insertScoredDesc x acc) acc).Perm (acc ++ l) by
    simpa using h []
  induction l with
  | nil => intro acc; simp
  | cons x xs ih =>
    intro acc
    rw [List.foldl_cons]
    refine (ih (insertScoredDesc x acc)).trans ?_
    refine (List.Perm.append_right xs (insertScored_perm x acc)).trans ?_
    exact (List.perm_middle).symm

theorem pyStrip_ne_nil_of {x : PyStr} (h : pyStrip x ≠ []) : x ≠ [] := by
  intro he
  rw [he] at h
  exact h pyStrip_nil

theorem docsOf_ne_nil (content : PyStr) : docsOf content ≠ [] := by
  unfold docsOf
  by_cases h : (chunksOf content).length > 1
  · rw [if_pos h]
    intro he
    have h2 : (chunksOf content).tail = [] := List.map_eq_nil.mp he
    have hlen := congrArg List.length h2
    rw [List.length_tail] at hlen
    simp only [List.length_nil] at hlen
    omega
  · rw [if_neg h]
    simp

theorem docsOf_elems {content : PyStr} (hne : content ≠ []) :
    ∀ d ∈ docsOf content, d ≠ [] := by
  unfold docsOf
  split
  · intro d hd
    obtain ⟨chunk, -, rfl⟩ := List.mem_map.mp hd
    simp [S]
  · intro d hd
    have : d = content := by simpa using hd
    rw [this]
    exact hne

theorem stubFor_ne_nil (category docHeader : PyStr) :
    stubFor category docHeader ≠ [] := by
  unfold stubFor
  simp [S]

theorem relevantSections_ne_nil (content category : PyStr) :
    relevantSectionsOf content category ≠ [] := by
  unfold relevantSectionsOf
  intro h
  rcases List.append_eq_nil.mp h with ⟨-, h2⟩
  exact docsOf_ne_nil content (List.map_eq_nil.mp h2)

theorem relevantSections_elems {content : PyStr} (hne : content ≠ [])
    (category : PyStr) :
    ∀ sec ∈ relevantSectionsOf content category, sec ≠ [] := by
  unfold relevantSectionsOf
  intro sec hsec
  rcases List.mem_append.mp hsec with h | h
  · split at h
    · have : sec = headerOf content := by simpa using h
      rw [this]
      exact pyStrip_ne_nil_of (by assumption)
    · simp at h
  · obtain ⟨d, hd, rfl⟩ := List.mem_map.mp h
    split
    · exact docsOf_elems hne d hd
    · exact stubFor_ne_nil _ _

theorem pyJoin_cons_ne_nil {sep x : PyStr} (hx : x ≠ []) (xs : List PyStr) :
    pyJoin sep (x :: xs) ≠ [] := by
  rw [pyJoin_cons]
  intro h
  exact hx (List.append_eq_nil.mp h).1

/-- Counterexample to C1 as stated: the non-empty single document
`"hello"` with category `gmo` and `max_tokens = 1` drives the re-ranking
path, where the first section neither fits the budget (its token estimate
exceeds 1) nor leaves more than 100 remaining tokens, so the greedy loop
breaks with nothing accumulated and the function returns the empty
string. -/
theorem C1_counterexample :
    extractRelevantSections (S "hello") (S "gmo") 1 = [] := by
  decide

/-- C1 (amended).  For every document content (with at least one non-empty
document) and every category, the Content Budgeter returns a non-empty
string for every `max_tokens > 100`: within budget the stubbed combination
is non-empty, and under re-ranking the first-ranked section is either
included whole or, since more than 100 tokens of budget remain at the
start, contributes a truncated prefix with the truncation marker. -/
theorem C1_nonempty_above_100 (content category : PyStr) (maxTokens : Nat)
    (hcontent : content ≠ []) (hmax : 100 < maxTokens) :
    extractRelevantSections content category maxTokens ≠ [] := by
  unfold extractRelevantSections
  obtain ⟨s0, rest, hsec⟩ : ∃ s0 rest,
      relevantSectionsOf content category = s0 :: rest := by
    rcases h : relevantSectionsOf content category with _ | ⟨s0, rest⟩
    · exact absurd h (relevantSections_ne_nil content category)
    · exact ⟨s0, rest, rfl⟩
  split
  · obtain ⟨y, ys, hsort⟩ : ∃ y ys,
        sortScoredDesc (scoredSectionsOf content category) = y :: ys := by
      rcases h : sortScoredDesc (scoredSectionsOf content category) with _ | ⟨y, ys⟩
      · exfalso
        have hperm := sortScored_perm (scoredSectionsOf content category)
        rw [h] at hperm
        have := hperm.length_eq
        rw [show scoredSectionsOf content category =
          (relevantSectionsOf content category).map _ from rfl, hsec] at this
        simp at this
      · exact ⟨y, ys, rfl⟩
    rw [hsort]
    have hyseg : y.seg ≠ [] := by
      have hmem : y ∈ scoredSectionsOf content category := by
        have hperm := sortScored_perm (scoredSectionsOf content category)
        exact hperm.mem_iff.mp (hsort ▸ List.mem_cons_self y ys)
      obtain ⟨sec, hsecm, rfl⟩ := List.mem_map.mp hmem
      exact relevantSections_elems hcontent category sec hsecm
    unfold greedyTake
    split
    · exact pyJoin_cons_ne_nil hyseg _
    · split
      · apply pyJoin_cons_ne_nil
        intro h
        rcases List.append_eq_nil.mp h with ⟨-, h2⟩
        simp [truncMarker, S] at h2
      · exfalso
        have : 400 < 4 * maxTokens - 0 := by omega
        simp at this
        omega
  · rw [hsec]
    exact pyJoin_cons_ne_nil
      (relevantSections_elems hcontent category s0 (hsec ▸ List.mem_cons_self s0 rest)) rest

/-- Witness for C1 (amended): `"hello"`, category `gmo`,
`max_tokens = 101`. -/
theorem C1_witness :
    (S "hello" ≠ []) ∧ 100 < 101 ∧
      extractRelevantSections (S "hello") (S "gmo") 101 ≠ [] :=
  ⟨by decide, by decide, C1_nonempty_above_100 (S "hello") (S "gmo") 101 (by decide) (by decide)⟩

/-- Counterexample to C5 as stated: a corpus whose leading header
`"Introductory notes"` has no `gmo` keywords, followed by one keyword-rich
document, under a budget (`max_tokens = 30`) that the combined content
exceeds.  In the re-ranking pass the header *is* scored (scoring 0), ranks
below the document, no longer fits the remaining budget, and is dropped:
the returned string does not contain the header text. -/
theorem C5_counterexample :
    headerOf (S "Introductory notes\n\n=== DOCUMENT 1\ngmo gmo gmo gmo gmo gmo gmo gmo gmo gmo gmo gmo gmo gmo gmo gmo gmo gmo gmo gmo gmo gmo gmo gmo ") =
      S "Introductory notes" ∧
    pyIn (S "Introductory")
      (extractRelevantSections
        (S "Introductory notes\n\n=== DOCUMENT 1\ngmo gmo gmo gmo gmo gmo gmo gmo gmo gmo gmo gmo gmo gmo gmo gmo gmo gmo gmo gmo gmo gmo gmo gmo ")
        (S "gmo") 30) = false := by
  refine ⟨by decide, by decide⟩

/-- C5 (amended).  The leading header (when its strip is non-empty) is
always kept — as a prefix of the returned string — whenever the combined
stubbed content fits the token budget, i.e. whenever the re-ranking pass
is not entered.  (In the re-ranking pass the header is scored like any
other segment and can be dropped or truncated, as the counterexample
shows.) -/
theorem C5_header_kept_within_budget (content category : PyStr) (maxTokens : Nat)
    (hh : pyStrip (headerOf content) ≠ [])
    (hfit : (pyJoin (S "\n\n") (relevantSectionsOf content category)).length ≤
      4 * maxTokens) :
    (headerOf content) <+: extractRelevantSections content category maxTokens := by
  unfold extractRelevantSections
  rw [if_neg (by omega)]
  unfold relevantSectionsOf
  rw [if_pos hh]
  rw [List.singleton_append, pyJoin_cons]
  exact List.prefix_append _ _

/-- Witness for C5 (amended): a small corpus that fits a 6000-token
budget; the header is a prefix of the output. -/
theorem C5_witness :
    (pyStrip (headerOf (S "Intro\n\n=== DOCUMENT 1\ngmo")) ≠ []) ∧
    (pyJoin (S "\n\n") (relevantSectionsOf (S "Intro\n\n=== DOCUMENT 1\ngmo") (S "gmo"))).length ≤
      4 * 6000 ∧
    (headerOf (S "Intro\n\n=== DOCUMENT 1\ngmo")) <+:
      extractRelevantSections (S "Intro\n\n=== DOCUMENT 1\ngmo") (S "gmo") 6000 :=
  ⟨by decide, by decide,
    C5_header_kept_within_budget (S "Intro\n\n=== DOCUMENT 1\ngmo") (S "gmo") 6000
      (by decide) (by decide)⟩

/-! ## Table shape invariant (C8) -/

theorem uniqueColumns_length (l : List PyStr) :
    (uniqueColumns l).length = l.length := by
  unfold uniqueColumns
  suffices h : ∀ (el : List (Nat × PyStr)) (acc : List PyStr),
      (el.foldl (fun acc p =>
        acc ++ [if p.2 = [] ∨ p.2 ∈ acc then synthName p.1 else p.2]) acc).length =
      acc.length + el.length by
    rw [h l.enum []]
    simp
  intro el
  induction el with
  | nil => intro acc; simp
  | cons p ps ih =>
    intro acc
    rw [List.foldl_cons, ih]
    simp
    omega

theorem headerSplit_fst_length {headers : List PyStr} {mcc : Nat}
    {rows : List (List PyStr)} (hrows : ∀ r ∈ rows, r.length = mcc)
    (hne : rows ≠ []) : (headerSplit headers mcc rows).1.length = mcc := by
  unfold headerSplit
  split
  · rename_i h
    simp [h.2]
  · split
    · simp only [Prod.fst]
      rw [List.length_map]
      refine hrows rows.headI ?_
      cases rows with
      | nil => exact absurd rfl hne
      | cons x xs => exact List.mem_cons_self x xs
    · simp

theorem headerSplit_snd_sub {headers : List PyStr} {mcc : Nat}
    {rows : List (List PyStr)} :
    ∀ r ∈ (headerSplit headers mcc rows).2, r ∈ rows := by
  unfold headerSplit
  split
  · exact fun r hr => hr
  · split
    · exact fun r hr => List.mem_of_mem_tail hr
    · exact fun r hr => hr

theorem buildTable_shape {td : List (List PyStr)} {hd : List PyStr} {t : PyTable}
    (h : buildTable td hd = some t) :
    (∀ row ∈ t.rows, row.length = t.columns.length) ∧ t.columns.Nodup := by
  simp only [buildTable] at h
  split at h
  · exact absurd h (by simp)
  · split at h
    · exact absurd h (by simp)
    · split at h
      · exact absurd h (by simp)
      · split at h
        · exact absurd h (by simp)
        · rename_i htd hlen hnodup hkept
          have h2 := Option.some_injective _ h
          subst h2
          dsimp only
          constructor
          · intro row hrow
            have hmem := List.mem_of_mem_filter hrow
            obtain ⟨r0, hr0, rfl⟩ := List.mem_map.mp hmem
            simp only [List.length_map, uniqueColumns_length]
            rw [headerSplit_fst_length ?hr ?hn]
            case hr =>
              intro r hrr
              obtain ⟨roww, -, rfl⟩ := List.mem_map.mp hrr
              simp only [List.length_append, List.length_take, List.length_replicate]
              omega
            case hn =>
              intro he
              rw [he] at hlen
              simp at hlen
            have hr0c := headerSplit_snd_sub r0 hr0
            obtain ⟨roww, -, rfl⟩ := List.mem_map.mp hr0c
            simp only [List.length_append, List.length_take, List.length_replicate]
            omega
          · exact not_not.mp hnodup

theorem flushTab_shape {st : TabScan}
    (h : ∀ t ∈ st.tables,
      (∀ row ∈ t.rows, row.length = t.columns.length) ∧ t.columns.Nodup) :
    ∀ t ∈ flushTab st,
      (∀ row ∈ t.rows, row.length = t.columns.length) ∧ t.columns.Nodup := by
  unfold flushTab
  split
  · rcases hbt : buildTable st.current st.headers with _ | tb
    · exact h
    · intro t htm
      rcases List.mem_append.mp htm with hm | hm
      · exact h t hm
      · have hm2 : t = tb := by simpa using hm
        rw [hm2]
        exact buildTable_shape hbt
  · exact h

theorem tabLine_shape {st : TabScan} (line : PyStr)
    (h : ∀ t ∈ st.tables,
      (∀ row ∈ t.rows, row.length = t.columns.length) ∧ t.columns.Nodup) :
    ∀ t ∈ (tabLine st line).tables,
      (∀ row ∈ t.rows, row.length = t.columns.length) ∧ t.columns.Nodup := by
  simp only [tabLine]
  split
  · exact flushTab_shape h
  · split
    · split
      · exact h
      · exact h
    · exact h

theorem foldl_tabLine_shape (lines : List PyStr) :
    ∀ (st : TabScan),
      (∀ t ∈ st.tables,
        (∀ row ∈ t.rows, row.length = t.columns.length) ∧ t.columns.Nodup) →
      ∀ t ∈ (lines.foldl tabLine st).tables,
        (∀ row ∈ t.rows, row.length = t.columns.length) ∧ t.columns.Nodup := by
  induction lines with
  | nil => intro st h; exact h
  | cons l ls ih =>
    intro st h
    rw [List.foldl_cons]
    exact ih _ (tabLine_shape l h)

/-- C8.  Every table the Table Heuristic Extractor returns satisfies the
shape invariant: every row has exactly as many cells as there are columns,
and the column-name sequence has no duplicates.  (Column collisions are
substituted with the positional synthetic name `Column_{i+1}`; in the rare
case where that substitution itself collides with an earlier name, the
code's per-column cleaning loop raises inside pandas and the `except`
returns `None`, so such a table is discarded rather than returned.) -/
theorem C8_table_shape_invariant (text : PyStr) :
    ∀ t ∈ extractTables text,
      (∀ row ∈ t.rows, row.length = t.columns.length) ∧ t.columns.Nodup := by
  unfold extractTables
  apply flushTab_shape
  apply foldl_tabLine_shape
  intro t ht
  simp at ht

/-- Witness for C8: a concrete three-column table text. -/
theorem C8_witness :
    (⟨[S "Test", S "Result", S "Limit"],
        [[S "Lead", S "1", S "2"], [S "Cad", S "3", S "4"]]⟩ : PyTable) ∈
      extractTables (S "Test  Result  Limit\nLead  1  2\nCad  3  4\n") ∧
    (∀ row ∈ ([[S "Lead", S "1", S "2"], [S "Cad", S "3", S "4"]] : List (List PyStr)),
      row.length = ([S "Test", S "Result", S "Limit"] : List PyStr).length) ∧
    ([S "Test", S "Result", S "Limit"] : List PyStr).Nodup :=
  ⟨by decide,
    (C8_table_shape_invariant (S "Test  Result  Limit\nLead  1  2\nCad  3  4\n")
      ⟨[S "Test", S "Result", S "Limit"],
        [[S "Lead", S "1", S "2"], [S "Cad", S "3", S "4"]]⟩ (by decide)).1,
    (C8_table_shape_invariant (S "Test  Result  Limit\nLead  1  2\nCad  3  4\n")
      ⟨[S "Test", S "Result", S "Limit"],
        [[S "Lead", S "1", S "2"], [S "Cad", S "3", S "4"]]⟩ (by decide)).2⟩
